import Mathlib

/-!
Verification of the nba-pipeline event-stream reconstruction and attribution
engine.  Each Python transformer that the claims touch is shallowly embedded as
an executable Lean definition over explicit record types; DataFrames become
lists of records, pandas NaN-able columns become `Option` fields, Python
exceptions become `Option`/`Except` results, and float percentages become
exact rationals.  The theorems below settle the behavioural claims against
these embeddings.
-/

/-! ### Generic list helpers -/

/-- Python dict key enumeration order: first occurrence of each element,
duplicates dropped. -/

def firstOccDedup {α : Type} [DecidableEq α] : List α → List α
  | [] => []
  | a :: l => a :: (firstOccDedup l).filter (fun b => b ≠ a)

namespace RimDefense

/-! ### Rim defense (src/players/transformers/rim_defense.py) -/

/-- One row of the enhanced play-by-play restricted to the fields
`_calculate_rim_defense_stats` reads.  Nullable team ids are `Option`. -/

structure Shot where
  msgType : Nat
  period : Int
  wallClockInt : Int
  offTeamId : Option Int
  defTeamId : Option Int
  is_rim_shot : Bool

deriving DecidableEq, Repr

/-- One player court-time interval from the hybrid lineup tracker. -/

structure Interval where
  playerId : Int
  teamId : Int
  period_start : Int
  period_end : Int
  wallClock_start : Int
  wallClock_end : Int

deriving DecidableEq, Repr

/-- Per-player accumulator mirroring the nested dict
`player_stats[pid] = {'on': {'makes','attempts'}, 'off': {...}, 'teamId'}`. -/

structure PStats where
  on_makes : Nat
  on_attempts : Nat
  off_makes : Nat
  off_attempts : Nat
  teamId : Int

deriving DecidableEq, Repr

/-- One row of the rim-defense output DataFrame.  The two percentage columns
can be nulled by the trailing `.where` calls, so they are `Option`; the
differential column is produced by plain float subtraction of the raw (not yet
nulled) percentage columns. -/

structure RimRow where
  playerId : Int
  teamId : Int
  rim_fgm_on : Nat
  rim_fga_on : Nat
  rim_fgm_off : Nat
  rim_fga_off : Nat
  rim_fg_pct_on : Option ℚ
  rim_fg_pct_off : Option ℚ
  rim_fg_pct_diff : Option ℚ

deriving DecidableEq, Repr

/-- `_get_player_team_mapping`, read at one key: the dict is filled row by
row, later rows overwriting earlier ones, so a lookup returns the team id of
the last interval of that player. -/

def get_player_team_mapping (intervals : List Interval) (pid : Int) : Option Int :=
  ((intervals.filter (fun iv => iv.playerId = pid)).getLast?).map (fun iv => iv.teamId)

/-- Key set of `_get_player_team_mapping`'s dict in insertion order. -/

def player_team_keys (intervals : List Interval) : List Int :=
  firstOccDedup (intervals.map (fun iv => iv.playerId))

/-- The `players_on_court` interval filter for one shot. -/

def players_on_court (intervals : List Interval) (s : Shot) : List Interval :=
  intervals.filter (fun iv =>
    decide (iv.period_start ≤ s.period) && decide (iv.period_end ≥ s.period) &&
    decide (iv.wallClock_start ≤ s.wallClockInt) && decide (iv.wallClock_end ≥ s.wallClockInt))

/-- The `defending_players` list for one shot: on-court rows of the defending
team, projected to player ids. -/

def defending_players (intervals : List Interval) (s : Shot) (dteam : Int) : List Int :=
  ((players_on_court intervals s).filter (fun iv => iv.teamId = dteam)).map (fun iv => iv.playerId)

/-- One `'on'`/`'off'` bucket increment for one shot. -/

def bump_stats (made on_court : Bool) (st : PStats) : PStats :=
  if on_court then
    { st with on_attempts := st.on_attempts + 1,
              on_makes := if made then st.on_makes + 1 else st.on_makes }
  else
    { st with off_attempts := st.off_attempts + 1,
              off_makes := if made then st.off_makes + 1 else st.off_makes }

/-- `if player_id not in player_stats: player_stats[player_id] = zeros`. -/

def stats_init (m : List (Int × PStats)) (pid : Int) (tid : Int) : List (Int × PStats) :=
  if (m.find? (fun kv => kv.1 == pid)).isSome then m else m ++ [(pid, ⟨0, 0, 0, 0, tid⟩)]

/-- The body of the inner `for player_id in defensive_team_players` loop for a
single player: initialize if absent, then bump the proper bucket. -/

def update_player (m : List (Int × PStats)) (pid : Int) (made on_court : Bool)
    (tid : Int) : List (Int × PStats) :=
  (stats_init m pid tid).map (fun kv => if kv.1 = pid then (kv.1, bump_stats made on_court kv.2) else kv)

/-- Processing of one row of `rim_shots` inside `_calculate_rim_defense_stats`:
skip shots with a missing team id, otherwise bump every defending-roster
player into the bucket given by interval membership. -/

def process_shot (intervals : List Interval) (m : List (Int × PStats)) (s : Shot) :
    List (Int × PStats) :=
  match s.offTeamId, s.defTeamId with
  | some _, some dteam =>
      let defenders := defending_players intervals s dteam
      let roster := (player_team_keys intervals).filter
        (fun pid => get_player_team_mapping intervals pid == some dteam)
      roster.foldl (fun acc pid =>
        update_player acc pid (s.msgType == 1) (defenders.contains pid) dteam) m
  | _, _ => m

/-- Conversion of one accumulator entry into an output row, mirroring the final
percentage computation: the raw percentages divide by `attempts.replace(0, 1)`,
the differential subtracts the raw percentages, and only the two percentage
columns are subsequently nulled where `attempts = 0`. -/

def mk_rim_row (pid : Int) (st : PStats) : RimRow :=
  let raw_on : ℚ := (st.on_makes : ℚ) / (if st.on_attempts = 0 then 1 else (st.on_attempts : ℚ))
  let raw_off : ℚ := (st.off_makes : ℚ) / (if st.off_attempts = 0 then 1 else (st.off_attempts : ℚ))
  { playerId := pid
    teamId := st.teamId
    rim_fgm_on := st.on_makes
    rim_fga_on := st.on_attempts
    rim_fgm_off := st.off_makes
    rim_fga_off := st.off_attempts
    rim_fg_pct_on := if 0 < st.on_attempts then some raw_on else none
    rim_fg_pct_off := if 0 < st.off_attempts then some raw_off else none
    rim_fg_pct_diff := some (raw_on - raw_off) }

/-- `_calculate_rim_defense_stats`. -/

def calculate_rim_defense_stats (rim_shots : List Shot) (intervals : List Interval) :
    List RimRow :=
  (rim_shots.foldl (process_shot intervals) []).map (fun kv => mk_rim_row kv.1 kv.2)

/-- `track_rim_defense`: filter to rim shots, then compute the stats. -/

def track_rim_defense (enhanced_pbp : List Shot) (intervals : List Interval) :
    List RimRow :=
  calculate_rim_defense_stats (enhanced_pbp.filter (fun s => s.is_rim_shot)) intervals

/-- Whether a shot counts against player `pid`: both team ids known and the
player's roster team is the defending team. -/

def counts_against (intervals : List Interval) (pid : Int) (s : Shot) : Bool :=
  match s.offTeamId, s.defTeamId with
  | some _, some d => get_player_team_mapping intervals pid == some d
  | _, _ => false

/-- Whether player `pid` is on court (per interval membership, defending side)
at the instant of shot `s`. -/

def on_court_for_shot (intervals : List Interval) (pid : Int) (s : Shot) : Bool :=
  match s.defTeamId with
  | some d => (defending_players intervals s d).contains pid
  | none => false

/-- Dict lookup into the accumulator. -/

def stats_of (m : List (Int × PStats)) (pid : Int) : Option PStats :=
  (m.find? (fun kv => kv.1 == pid)).map (fun kv => kv.2)

/-- On-court attempt counter of a player in the accumulator (0 when absent). -/

def on_att (m : List (Int × PStats)) (pid : Int) : Nat :=
  ((stats_of m pid).map (fun st => st.on_attempts)).getD 0

/-- Off-court attempt counter of a player in the accumulator (0 when absent). -/

def off_att (m : List (Int × PStats)) (pid : Int) : Nat :=
  ((stats_of m pid).map (fun st => st.off_attempts)).getD 0

/-- Concrete input for the rim-defense scenarios: one made rim shot by team 1
against team 2, and a single defending-team interval covering the shot. -/

def cex_shot : Shot :=
  { msgType := 1, period := 1, wallClockInt := 100,
    offTeamId := some 1, defTeamId := some 2, is_rim_shot := true }

/-- A single court-time interval: player 20 of team 2 is on court around the
shot. -/

def cex_interval : Interval :=
  { playerId := 20, teamId := 2, period_start := 1, period_end := 1,
    wallClock_start := 50, wallClock_end := 150 }

end RimDefense

namespace LineupPossessions

/-! ### Lineup-possession attribution (src/lineups/transformers/lineup_possessions.py) -/

/-- One row of the lineup-states table, restricted to the fields
`find_lineup_at_time` reads plus the lineup identity payload it returns. -/

structure LineupState where
  team_id : Int
  period : Int
  game_clock_seconds : Int
  lineup_id : String

deriving DecidableEq, Repr

/-- Comparison used by the descending sort on `game_clock_seconds`
(`sort_values(..., ascending=False)`). -/

def clock_ge (a b : LineupState) : Prop :=
  b.game_clock_seconds ≤ a.game_clock_seconds

instance : DecidableRel clock_ge := fun a b =>
  inferInstanceAs (Decidable (b.game_clock_seconds ≤ a.game_clock_seconds))

instance : IsTotal LineupState clock_ge :=
  ⟨fun a b => (le_total b.game_clock_seconds a.game_clock_seconds)⟩

instance : IsTrans LineupState clock_ge :=
  ⟨fun _ _ _ h1 h2 => le_trans h2 h1⟩

/-- `find_lineup_at_time`: filter to team and period; if empty return the
not-found result; otherwise sort descending by clock, keep the states whose
clock is at or above the probe time, and take the last of those, falling back
to the last row of the full sorted frame. -/

def find_lineup_at_time (lineups : List LineupState) (period : Int)
    (time_seconds : Int) (team_id : Int) : Option LineupState :=
  let team_lineups := lineups.filter
    (fun l => l.team_id == team_id && l.period == period)
  if team_lineups.isEmpty then none
  else
    let sorted := List.insertionSort clock_ge team_lineups
    let active := sorted.filter (fun l => l.game_clock_seconds ≥ time_seconds)
    match active.getLast? with
    | some l => some l
    | none => sorted.getLast?

/-- Concrete lineup-state row used as C2 witness data: team 5 in period 1 with
a lineup recorded at clock 300. -/

def wit_state : LineupState :=
  { team_id := 5, period := 1, game_clock_seconds := 300, lineup_id := "u5" }

end LineupPossessions

namespace Possessions

/-! ### Possession segmentation (src/lineups/transformers/possessions.py) -/

/-- Raw play-by-play row for the possession parser.  The display clock is
modelled already converted to seconds (the `_game_clock_to_seconds` step, which
always yields a nonnegative integer). -/

structure RawEvent where
  period : Int
  game_clock_seconds : Int
  pbpOrder : Int
  msgType : Nat
  playerId1 : Option Int
  offTeamId : Int
  nbaTeamId : Option Int
  pts : Int

deriving DecidableEq, Repr

/-- Raw event with the computed `time_elapsed` column. -/

structure TimedEvent extends RawEvent where
  time_elapsed : Int

deriving DecidableEq, Repr

/-- Fully prepared event: timed event plus the cleaned team columns. -/

structure PrepEvent extends TimedEvent where
  offTeamId_clean : Option Int
  defTeamId_clean : Option Int

deriving DecidableEq, Repr

/-- Per-period maximum clock (`pbp.groupby('period')['game_clock_seconds'].max()`).
Clocks are nonnegative, so the 0 seed of the fold is neutral on the periods
that actually occur. -/

def maxClockOfPeriod (pbp : List RawEvent) (p : Int) : Int :=
  ((pbp.filter (fun e => e.period = p)).map (fun e => e.game_clock_seconds)).foldl max 0

/-- Chronological comparison used by
`sort_values(['period', 'time_elapsed', 'pbpOrder'])`. -/

def chronoLe (a b : TimedEvent) : Prop :=
  a.period < b.period ∨ (a.period = b.period ∧ (a.time_elapsed < b.time_elapsed ∨
    (a.time_elapsed = b.time_elapsed ∧ a.pbpOrder ≤ b.pbpOrder)))

instance : DecidableRel chronoLe := fun a b => by
  unfold chronoLe; infer_instance

instance : IsTotal TimedEvent chronoLe := by
  constructor
  intro a b
  unfold chronoLe
  omega

instance : IsTrans TimedEvent chronoLe := by
  constructor
  intro a b c h1 h2
  unfold chronoLe at h1 h2 ⊢
  omega

/-- Integer ascending sort used for `sorted(list(set(...)))`. -/

def sortedDedupInt (l : List Int) : List Int :=
  List.insertionSort (fun a b => a ≤ b) l.dedup

/-- The `valid_teams` computation of `_clean_team_ids`: distinct positive
`offTeamId` values, sorted; fall back to the distinct `nbaTeamId` values when
there are not exactly two. -/

def valid_teams_clean (pbp : List TimedEvent) : List Int :=
  let vt := sortedDedupInt ((pbp.filter (fun e => e.offTeamId > 0)).map (fun e => e.offTeamId))
  if vt.length ≠ 2 then sortedDedupInt (pbp.filterMap (fun e => e.nbaTeamId)) else vt

/-- `offTeamId_clean = offTeamId.where(offTeamId > 0, NaN)` for one row. -/

def off_clean (e : TimedEvent) : Option Int :=
  if e.offTeamId > 0 then some e.offTeamId else none

/-- The row lambda computing `defTeamId_clean`
(`valid_teams[1] if x == valid_teams[0] else valid_teams[0] if notna(x) else NaN`).
The outer `none` models the `IndexError` raised when `valid_teams` is too
short for the index that gets evaluated. -/

def def_clean_calc (vt : List Int) (x : Option Int) : Option (Option Int) :=
  match vt.head? with
  | none => none
  | some v0 =>
    if x = some v0 then (vt.get? 1).map some
    else match x with
      | some _ => some (some v0)
      | none => some none

/-- Row-by-row application of `_clean_team_ids` to the sorted frame; any row
whose lambda raises aborts the whole computation. -/

def clean_rows (vt : List Int) : List TimedEvent → Option (List PrepEvent)
  | [] => some []
  | e :: es =>
    match def_clean_calc vt (off_clean e) with
    | none => none
    | some dc =>
      (clean_rows vt es).map (fun rest =>
        ({ toTimedEvent := e, offTeamId_clean := off_clean e, defTeamId_clean := dc } :
          PrepEvent) :: rest)

/-- `_prepare_pbp_data`: compute `time_elapsed` from the per-period maximum
clock, sort chronologically, then clean the team-id columns. -/

def prepare_pbp_data (pbp : List RawEvent) : Option (List PrepEvent) :=
  let timed : List TimedEvent := pbp.map (fun e =>
    { toRawEvent := e,
      time_elapsed := maxClockOfPeriod pbp e.period - e.game_clock_seconds })
  let sorted := List.insertionSort chronoLe timed
  clean_rows (valid_teams_clean sorted) sorted

/-- One possession-ending record. -/

structure Ending where
  period : Int
  end_time_seconds : Int
  time_elapsed : Int
  end_type : String
  ending_team : Option Int
  pbp_idx : Nat

deriving DecidableEq, Repr

/-- Pandas scalar equality on two NaN-able values: NaN compares unequal to
everything, including NaN. -/

def pid_eq (a b : Option Int) : Bool :=
  match a, b with
  | some x, some y => x == y
  | _, _ => false

/-- `_is_and_one_freethrow`: the look-ahead window is the next two rows, but
only when `idx < len(pbp) - 2`; otherwise the guard yields an empty frame. -/

def is_and_one_freethrow (play : PrepEvent) (pbp : List PrepEvent) (idx : Nat) : Bool :=
  let next_plays := if idx < pbp.length - 2 then (pbp.drop (idx + 1)).take 2 else []
  next_plays.any (fun np => np.msgType == 3 && pid_eq np.playerId1 play.playerId1 &&
    decide ((np.time_elapsed - play.time_elapsed).natAbs < 5))

/-- `_is_last_free_throw`: same guarded two-row window, 10-second tolerance. -/

def is_last_free_throw (play : PrepEvent) (pbp : List PrepEvent) (idx : Nat) : Bool :=
  let next_plays := if idx < pbp.length - 2 then (pbp.drop (idx + 1)).take 2 else []
  !(next_plays.any (fun np => np.msgType == 3 && pid_eq np.playerId1 play.playerId1 &&
    decide ((np.time_elapsed - play.time_elapsed).natAbs < 10)))

/-- `_is_defensive_rebound`: scan the previous five rows (nearest first) for a
missed shot; note that every branch of the source, including the `break`
fall-through, returns `True`. -/

def is_defensive_rebound (play : PrepEvent) (pbp : List PrepEvent) (idx : Nat) : Bool :=
  let prev_plays := ((pbp.take idx).drop (idx - 5)).reverse
  match prev_plays.find? (fun pp => pp.msgType == 2) with
  | some pp =>
    if play.offTeamId_clean.isSome && pp.offTeamId_clean.isSome &&
        !(pid_eq play.offTeamId_clean pp.offTeamId_clean) then true
    else true
  | none => true

/-- `_create_possession_ending`. -/

def create_possession_ending (play : PrepEvent) (end_type : String) (idx : Nat) : Ending :=
  { period := play.period
    end_time_seconds := play.game_clock_seconds
    time_elapsed := play.time_elapsed
    end_type := end_type
    ending_team := play.offTeamId_clean
    pbp_idx := idx }

/-- The per-row decision of `_identify_possession_endings`. -/

def ending_for (pbp : List PrepEvent) (idx : Nat) (play : PrepEvent) : Option Ending :=
  if play.msgType = 1 then
    if !(is_and_one_freethrow play pbp idx) then
      some (create_possession_ending play "made_shot" idx)
    else none
  else if play.msgType = 3 then
    if is_last_free_throw play pbp idx then
      some (create_possession_ending play "free_throw" idx)
    else none
  else if play.msgType = 4 then
    if is_defensive_rebound play pbp idx then
      some (create_possession_ending play "defensive_rebound" idx)
    else none
  else if play.msgType = 5 then some (create_possession_ending play "turnover" idx)
  else if play.msgType = 12 ∨ play.msgType = 13 then
    some (create_possession_ending play "period_end" idx)
  else none

/-- `_identify_possession_endings`. -/

def identify_possession_endings (pbp : List PrepEvent) : List Ending :=
  pbp.enum.filterMap (fun ie => ending_for pbp ie.1 ie.2)

/-- One possession row.  `points_scored` and `duration_seconds` are the
columns added later by `_calculate_possession_metrics`; the builder leaves
them at 0. -/

structure Possession where
  possession_id : Nat
  period : Int
  start_time_seconds : Int
  end_time_seconds : Int
  off_team : Int
  def_team : Int
  end_type : String
  pbp_end_idx : Nat
  points_scored : Int
  duration_seconds : Int

deriving DecidableEq, Repr

/-- Ascending comparison on `time_elapsed` used by
`period_endings.sort_values('time_elapsed')`. -/

def te_le (a b : Ending) : Prop := a.time_elapsed ≤ b.time_elapsed

instance : DecidableRel te_le := fun a b =>
  inferInstanceAs (Decidable (a.time_elapsed ≤ b.time_elapsed))

instance : IsTotal Ending te_le := ⟨fun a b => le_total a.time_elapsed b.time_elapsed⟩

instance : IsTrans Ending te_le := ⟨fun _ _ _ h1 h2 => le_trans h1 h2⟩

/-- The inner `for _, ending in period_endings.iterrows()` loop: emit one
possession per ending, advancing the start time and swapping the teams after
a `defensive_rebound` or `turnover`. -/

def process_period_endings (pd : Int) : Int → Int → Int → Nat → List Ending →
    List Possession
  | _, _, _, _, [] => []
  | cur, other, start, pid, e :: rest =>
    let poss : Possession :=
      { possession_id := pid
        period := pd
        start_time_seconds := start
        end_time_seconds := e.end_time_seconds
        off_team := cur
        def_team := other
        end_type := e.end_type
        pbp_end_idx := e.pbp_idx
        points_scored := 0
        duration_seconds := 0 }
    if e.end_type = "defensive_rebound" ∨ e.end_type = "turnover" then
      poss :: process_period_endings pd other cur e.end_time_seconds (pid + 1) rest
    else
      poss :: process_period_endings pd cur other e.end_time_seconds (pid + 1) rest

/-- The outer per-period loop of `_build_possession_timeline`.  `Option`
failures model the `IndexError` on `iloc[0]` / `valid_teams[...]` when a
period has no team-attributable event or fewer than the required number of
distinct teams exist. -/

def process_periods (pbp : List PrepEvent) (endings : List Ending) :
    Nat → List Int → Option (List Possession)
  | _, [] => some []
  | pid, p :: rest =>
    match ((pbp.filter (fun e => e.period = p)).filter
        (fun e => e.offTeamId_clean.isSome)).head? with
    | none => none
    | some fte =>
      match fte.offTeamId_clean with
      | none => none
      | some cur =>
        match (sortedDedupInt (pbp.filterMap (fun e => e.offTeamId_clean))).head? with
        | none => none
        | some v0 =>
          match (if cur = v0 then
              (sortedDedupInt (pbp.filterMap (fun e => e.offTeamId_clean))).get? 1
            else some v0) with
          | none => none
          | some other =>
            match process_periods pbp endings
              (pid + (List.insertionSort te_le
                (endings.filter (fun e => e.period = p))).length) rest with
            | none => none
            | some more =>
              some (process_period_endings p cur other
                (((pbp.filter (fun e => e.period = p)).map
                  (fun e => e.game_clock_seconds)).foldl max 0)
                pid (List.insertionSort te_le (endings.filter (fun e => e.period = p)))
                ++ more)

/-- `_build_possession_timeline`. -/

def build_possession_timeline (pbp : List PrepEvent) (endings : List Ending) :
    Option (List Possession) :=
  if endings.isEmpty then some []
  else process_periods pbp endings 1 (sortedDedupInt (endings.map (fun e => e.period)))

/-- `_calculate_possession_metrics`: duration and the sum of scoring events of
the offensive team inside the possession window. -/

def calculate_possession_metrics (possessions : List Possession)
    (pbp : List PrepEvent) : List Possession :=
  possessions.map (fun poss =>
    { poss with
      duration_seconds := |poss.start_time_seconds - poss.end_time_seconds|
      points_scored := ((pbp.filter (fun e =>
        decide (e.period = poss.period) &&
        decide (e.game_clock_seconds ≤ poss.start_time_seconds) &&
        decide (e.game_clock_seconds ≥ poss.end_time_seconds) &&
        (e.offTeamId_clean == some poss.off_team) &&
        decide (e.pts > 0))).map (fun e => e.pts)).sum })

/-- `extract_possessions`: prepare, identify endings, build the timeline,
compute the metrics. -/

def extract_possessions (pbp : List RawEvent) : Option (List Possession) :=
  match prepare_pbp_data pbp with
  | none => none
  | some prep =>
    match build_possession_timeline prep (identify_possession_endings prep) with
    | none => none
    | some possessions => some (calculate_possession_metrics possessions prep)

/-- The offense/defense handover policy between consecutive possessions of the
same period: a turnover or defensive rebound swaps the sides, every other end
type keeps them. -/

def flip_rel (a b : Possession) : Prop :=
  a.period = b.period →
    (((a.end_type = "turnover" ∨ a.end_type = "defensive_rebound") →
        b.off_team = a.def_team ∧ b.def_team = a.off_team) ∧
     (¬(a.end_type = "turnover" ∨ a.end_type = "defensive_rebound") →
        b.off_team = a.off_team ∧ b.def_team = a.def_team))

/-- Chronological (non-strict) order on possessions: earlier period, or same
period and a start clock at least as high. -/

def chrono_after (a b : Possession) : Prop :=
  a.period < b.period ∨ (a.period = b.period ∧ b.start_time_seconds ≤ a.start_time_seconds)

instance : IsTrans Possession chrono_after := by
  constructor
  intro a b c h1 h2
  unfold chrono_after at h1 h2 ⊢
  omega

/-- Concrete raw stream: jump ball, turnover by team 10, made shot by team 20,
period end.  Used as witness data for the possession invariants. -/

def wit4_raw : List RawEvent := [
  { period := 1, game_clock_seconds := 720, pbpOrder := 1, msgType := 10,
    playerId1 := some 101, offTeamId := 10, nbaTeamId := some 10, pts := 0 },
  { period := 1, game_clock_seconds := 700, pbpOrder := 2, msgType := 5,
    playerId1 := some 102, offTeamId := 10, nbaTeamId := some 10, pts := 0 },
  { period := 1, game_clock_seconds := 680, pbpOrder := 3, msgType := 1,
    playerId1 := some 201, offTeamId := 20, nbaTeamId := some 20, pts := 2 },
  { period := 1, game_clock_seconds := 0, pbpOrder := 4, msgType := 12,
    playerId1 := none, offTeamId := 0, nbaTeamId := none, pts := 0 }]

/-- Concrete raw stream whose made shot is the second-to-last event, followed
one second later by a free throw of the same shooter. -/

def cex3_raw : List RawEvent := [
  { period := 1, game_clock_seconds := 601, pbpOrder := 1, msgType := 10,
    playerId1 := none, offTeamId := 2, nbaTeamId := some 2, pts := 0 },
  { period := 1, game_clock_seconds := 600, pbpOrder := 2, msgType := 1,
    playerId1 := some 10, offTeamId := 1, nbaTeamId := some 1, pts := 2 },
  { period := 1, game_clock_seconds := 599, pbpOrder := 3, msgType := 3,
    playerId1 := some 10, offTeamId := 1, nbaTeamId := some 1, pts := 1 }]

/-- Concrete raw stream with two trailing events after the made shot, so the
and-one look-ahead window is active. -/

def wit_c3_raw : List RawEvent := [
  { period := 1, game_clock_seconds := 602, pbpOrder := 1, msgType := 10,
    playerId1 := none, offTeamId := 2, nbaTeamId := some 2, pts := 0 },
  { period := 1, game_clock_seconds := 601, pbpOrder := 2, msgType := 1,
    playerId1 := some 10, offTeamId := 1, nbaTeamId := some 1, pts := 2 },
  { period := 1, game_clock_seconds := 600, pbpOrder := 3, msgType := 3,
    playerId1 := some 10, offTeamId := 1, nbaTeamId := some 1, pts := 1 },
  { period := 1, game_clock_seconds := 0, pbpOrder := 4, msgType := 12,
    playerId1 := none, offTeamId := 0, nbaTeamId := none, pts := 0 }]

/-- Placeholder prepared event for `Option.getD`. -/

def dummy_prep : PrepEvent :=
  { toTimedEvent :=
      { toRawEvent :=
          { period := 0, game_clock_seconds := 0, pbpOrder := 0, msgType := 0,
            playerId1 := none, offTeamId := 0, nbaTeamId := none, pts := 0 },
        time_elapsed := 0 },
    offTeamId_clean := none, defTeamId_clean := none }

end Possessions

namespace Pbp

/-! ### Shared raw tables of the two lineup trackers -/

/-- One row of the box-score table, restricted to the fields the two lineup
builders read.  `startPos` is NaN-able. -/

structure BoxRow where
  team : String
  nbaId : Int
  nbaTeamId : Int
  startPos : Option String
  gs : Int

deriving DecidableEq, Repr

/-- One row of the play-by-play table as consumed by the two lineup builders;
the display clock is modelled already converted to seconds. -/

structure Row where
  gameId : String
  period : Int
  game_clock_seconds : Int
  wallClockInt : Int
  msgType : Nat
  team : String
  playerId1 : Option Int
  playerId2 : Option Int
  playerId3 : Option Int

deriving DecidableEq, Repr

end Pbp

namespace LineupStates

open Pbp

/-! ### Lineup states (src/lineups/transformers/lineup_states.py) -/

/-- The starter filter `startPos.notna() & (startPos != '')`. -/

def starter_rows (box : List BoxRow) : List BoxRow :=
  box.filter (fun r => match r.startPos with
    | some s => s ≠ ""
    | none => false)

/-- The teams enumerated by `starters['team'].unique()`, in first-occurrence
order. -/

def starter_teams (box : List BoxRow) : List String :=
  firstOccDedup ((starter_rows box).map (fun r => r.team))

/-- Number of designated starters of one team. -/

def count_starters (box : List BoxRow) (team : String) : Nat :=
  ((starter_rows box).filter (fun r => r.team = team)).length

/-- Per-team starting lineup entry. -/

structure TeamLineup where
  players : List Int
  team_id : Int

deriving DecidableEq, Repr

/-- The per-team loop of `_extract_starting_lineups`, raising `ValueError`
when a team does not have exactly five starters. -/

def extract_starting_go (box : List BoxRow) :
    List String → Except String (List (String × TeamLineup))
  | [] => .ok []
  | team :: rest =>
    match ((starter_rows box).filter (fun r => r.team = team)).head? with
    | none => .error ("no starters found for team " ++ team)
    | some r0 =>
      if (((starter_rows box).filter (fun r => r.team = team)).map
          (fun r => r.nbaId)).length ≠ 5 then
        .error ("team " ++ team ++ " does not have exactly 5 starters")
      else
        (extract_starting_go box rest).map (fun tl =>
          (team, ⟨((starter_rows box).filter (fun r => r.team = team)).map
            (fun r => r.nbaId), r0.nbaTeamId⟩) :: tl)

/-- `_extract_starting_lineups`. -/

def extract_starting_lineups (box : List BoxRow) :
    Except String (List (String × TeamLineup)) :=
  extract_starting_go box (starter_teams box)

/-- One parsed substitution row: `playerId1` is the player coming in,
`playerId2` the player going out. -/

structure SubRow where
  period : Int
  game_clock_seconds : Int
  team : String
  player_in : Int
  player_out : Int

deriving DecidableEq, Repr

/-- Comparison of `sort_values(['period', 'game_clock_seconds'],
ascending=[True, False])`. -/

def sub_order (a b : SubRow) : Prop :=
  a.period < b.period ∨ (a.period = b.period ∧
    b.game_clock_seconds ≤ a.game_clock_seconds)

instance : DecidableRel sub_order := fun a b => by
  unfold sub_order; infer_instance

/-- `_parse_substitutions`. -/

def parse_substitutions (pbp : List Row) : List SubRow :=
  List.insertionSort sub_order
    (((pbp.filter (fun r => r.msgType == 8)).filter
      (fun r => r.playerId1.isSome && r.playerId2.isSome)).map (fun r =>
        { period := r.period
          game_clock_seconds := r.game_clock_seconds
          team := r.team
          player_in := r.playerId1.getD 0
          player_out := r.playerId2.getD 0 }))

/-- Current on-court state of one team. -/

structure TeamState where
  team : String
  team_id : Int
  players : List Int

deriving DecidableEq, Repr

/-- One output row of the lineup-states table (the five player columns are
modelled as the sorted id list `_lineup_to_dict` produces). -/

structure LineupRow where
  period : Int
  game_clock_seconds : Int
  team : String
  team_id : Int
  players : List Int

deriving DecidableEq, Repr

/-- Ascending sort on player ids (`sorted(list(lineup_set))`). -/

def sort_players (l : List Int) : List Int :=
  List.insertionSort (fun a b : Int => a ≤ b) l

/-- The substitution loop of `_build_lineup_timeline` for one period: validate
each substitution against the current on-court set, silently skipping invalid
ones; apply valid ones and emit one new lineup row.  The `none` result models
the `KeyError` raised when the substitution names an unknown team. -/

def process_subs : List TeamState → List SubRow →
    Option (List TeamState × List LineupRow)
  | cur, [] => some (cur, [])
  | cur, sub :: rest =>
    match cur.find? (fun ts => ts.team == sub.team) with
    | none => none
    | some ts =>
      if sub.player_out ∉ ts.players ∨ sub.player_in ∈ ts.players then
        process_subs cur rest
      else
        match process_subs
          (cur.map (fun t2 => if t2.team = sub.team then
            { t2 with players := ((t2.players.filter (fun p => p ≠ sub.player_out)) ++ [sub.player_in]) }
            else t2)) rest with
        | none => none
        | some (cfin, rows) =>
          some (cfin,
            { period := sub.period
              game_clock_seconds := sub.game_clock_seconds
              team := sub.team
              team_id := ts.team_id
              players := sort_players
                ((ts.players.filter (fun p => p ≠ sub.player_out)) ++ [sub.player_in]) }
            :: rows)

/-- The per-period loop of `_build_lineup_timeline`: emit the period-start
rows for every team, then process the period's substitutions. -/

def build_timeline_go (subs : List SubRow) :
    List TeamState → List Int → Option (List LineupRow)
  | _, [] => some []
  | cur, period :: rest =>
    match process_subs cur (subs.filter (fun s => s.period = period)) with
    | none => none
    | some (cur2, subrows) =>
      match build_timeline_go subs cur2 rest with
      | none => none
      | some more =>
        some ((cur.map (fun ts => ({
          period := period
          game_clock_seconds := if period ≤ 4 then 720 else 300
          team := ts.team
          team_id := ts.team_id
          players := sort_players ts.players } : LineupRow))) ++ subrows ++ more)

/-- `_build_lineup_timeline`. -/

def build_lineup_timeline (starting : List (String × TeamLineup))
    (subs : List SubRow) (pbp : List Row) : Option (List LineupRow) :=
  build_timeline_go subs
    (starting.map (fun kv =>
      { team := kv.1, team_id := kv.2.team_id, players := kv.2.players }))
    (Possessions.sortedDedupInt (pbp.map (fun r => r.period)))

/-- Final sort of `extract_lineup_states`
(`sort_values(['team', 'period', 'game_clock_seconds'])`); `compare` realizes
the lexicographic order on the team strings. -/

def row_order (a b : LineupRow) : Prop :=
  compare a.team b.team = Ordering.lt ∨ (a.team = b.team ∧ (a.period < b.period ∨
    (a.period = b.period ∧ a.game_clock_seconds ≤ b.game_clock_seconds)))

instance : DecidableRel row_order := fun a b => by
  unfold row_order; infer_instance

/-- `extract_lineup_states`: starting lineups (may raise), substitutions,
timeline (may raise on unknown teams), final sort.  An empty timeline becomes
a column-less `pd.DataFrame`, so the final
`sort_values(['team', 'period', 'game_clock_seconds'])` raises `KeyError`:
the second error case. -/

def extract_lineup_states (box : List BoxRow) (pbp : List Row) :
    Except String (List LineupRow) :=
  match extract_starting_lineups box with
  | .error e => .error e
  | .ok starting =>
    match build_lineup_timeline starting (parse_substitutions pbp) pbp with
    | none => .error "KeyError: unknown team in substitution"
    | some [] => .error "KeyError: empty timeline in final sort"
    | some rows => .ok (List.insertionSort row_order rows)

end LineupStates

namespace CourtTime

open Pbp

/-! ### Hybrid court-time tracker (src/players/transformers/court_time.py) -/

/-- `_get_starting_lineups`: starters per team from the `gs == 1` rows; the
Python sets are modelled as deduplicated lists. -/

def get_starting_lineups (box : List BoxRow) : List (Int × List Int) :=
  (firstOccDedup ((box.filter (fun r => r.gs == 1)).map (fun r => r.nbaTeamId))).map
    (fun tid => (tid, firstOccDedup
      (((box.filter (fun r => r.gs == 1)).filter (fun r => r.nbaTeamId = tid)).map
        (fun r => r.nbaId))))

/-- `_get_team_mapping` read at one key; `dict(zip(...))` keeps the last
occurrence of a duplicated player id. -/

def get_team_mapping (box : List BoxRow) (pid : Int) : Option Int :=
  ((box.filter (fun r => r.nbaId = pid)).getLast?).map (fun r => r.nbaTeamId)

/-- Sort of `_get_substitution_events`
(`sort_values(['period', 'wallClockInt'])`). -/

def subs_sort (a b : Row) : Prop :=
  a.period < b.period ∨ (a.period = b.period ∧ a.wallClockInt ≤ b.wallClockInt)

instance : DecidableRel subs_sort := fun a b => by
  unfold subs_sort; infer_instance

/-- `_get_substitution_events`. -/

def get_substitution_events (pbp : List Row) : List Row :=
  List.insertionSort subs_sort (pbp.filter (fun r => r.msgType == 8))

/-- One expanded activity row. -/

structure ActivityRow where
  period : Int
  wallClockInt : Int
  playerId : Int
  msgType : Nat

deriving DecidableEq, Repr

/-- Sort of `_get_player_activities`. -/

def act_sort (a b : ActivityRow) : Prop :=
  a.period < b.period ∨ (a.period = b.period ∧ a.wallClockInt ≤ b.wallClockInt)

instance : DecidableRel act_sort := fun a b => by
  unfold act_sort; infer_instance

/-- `_get_player_activities`: expand the non-null participant columns of every
activity event (`msgType` 1..7).  When the expanded activity list is empty,
`pd.DataFrame([])` has no columns and the trailing
`sort_values(['period', 'wallClockInt'])` raises `KeyError`: the `none`
result. -/

def get_player_activities (pbp : List Row) : Option (List ActivityRow) :=
  match (pbp.filter (fun r => [1, 2, 3, 4, 5, 6, 7].contains r.msgType)).flatMap
      (fun r => ([r.playerId1, r.playerId2, r.playerId3].filterMap id).map
        (fun pid => (⟨r.period, r.wallClockInt, pid, r.msgType⟩ : ActivityRow))) with
  | [] => none
  | l => some (List.insertionSort act_sort l)

/-- One row of the status-change timeline. -/

structure StatusChange where
  period : Int
  wallClockInt : Int
  playerId : Int
  teamId : Int
  action : String
  source : String

deriving DecidableEq, Repr

/-- The explicit-substitution loop of `_build_hybrid_intervals`: for every
substitution event, `playerId1` goes OUT and `playerId2` comes IN, each only
when the team mapping yields a truthy team id; `int(...)` on a missing player
id raises (the `none` result). -/

def sub_status_changes (box : List BoxRow) : List Row → Option (List StatusChange)
  | [] => some []
  | sub :: rest =>
    match sub.playerId1, sub.playerId2 with
    | some pout, some pin =>
      match sub_status_changes box rest with
      | none => none
      | some more =>
        some ((match get_team_mapping box pout with
          | some tid => if tid ≠ 0 then
              [{ period := sub.period, wallClockInt := sub.wallClockInt,
                 playerId := pout, teamId := tid, action := "OUT",
                 source := "substitution" }]
            else []
          | none => []) ++
          (match get_team_mapping box pin with
          | some tid => if tid ≠ 0 then
              [{ period := sub.period, wallClockInt := sub.wallClockInt,
                 playerId := pin, teamId := tid, action := "IN",
                 source := "substitution" }]
            else []
          | none => []) ++ more)
    | _, _ => none

/-- One row of the combined event list of `_infer_reentries_from_activity`. -/

inductive CombEvent where
  | sub (period wallClockInt pout pin : Int)
  | act (period wallClockInt pid : Int)

deriving DecidableEq, Repr

/-- Period of a combined event. -/

def CombEvent.period : CombEvent → Int
  | .sub p _ _ _ => p
  | .act p _ _ => p

/-- Wall clock of a combined event. -/

def CombEvent.wallClockInt : CombEvent → Int
  | .sub _ w _ _ => w
  | .act _ w _ => w

/-- Sort of the combined event list. -/

def comb_sort (a b : CombEvent) : Prop :=
  a.period < b.period ∨ (a.period = b.period ∧ a.wallClockInt ≤ b.wallClockInt)

instance : DecidableRel comb_sort := fun a b => by
  unfold comb_sort; infer_instance

/-- The substitution half of the combined event list (`int(...)` raises on a
missing player id). -/

def comb_sub_events : List Row → Option (List CombEvent)
  | [] => some []
  | sub :: rest =>
    match sub.playerId1, sub.playerId2 with
    | some pout, some pin =>
      (comb_sub_events rest).map (fun more =>
        CombEvent.sub sub.period sub.wallClockInt pout pin :: more)
    | _, _ => none

/-- Python dict assignment `d[k] = v`: replace in place, else append. -/

def dict_set (st : List (Int × String)) (k : Int) (v : String) :
    List (Int × String) :=
  if (st.find? (fun kv => kv.1 == k)).isSome then
    st.map (fun kv => if kv.1 = k then (kv.1, v) else kv)
  else st ++ [(k, v)]

/-- Python `d.get(k)`. -/

def dict_get (st : List (Int × String)) (k : Int) : Option String :=
  (st.find? (fun kv => kv.1 == k)).map (fun kv => kv.2)

/-- The chronological scan of `_infer_reentries_from_activity`: substitutions
update the status dict, and an activity of a player whose status is OUT emits
an inferred IN entry. -/

def infer_go (box : List BoxRow) : List CombEvent → List (Int × String) →
    List StatusChange
  | [], _ => []
  | .sub _ _ pout pin :: rest, st =>
    infer_go box rest (dict_set (dict_set st pout "OUT") pin "IN")
  | .act p wc pid :: rest, st =>
    if dict_get st pid = some "OUT" then
      match get_team_mapping box pid with
      | some tid =>
        if tid ≠ 0 then
          { period := p, wallClockInt := wc, playerId := pid, teamId := tid,
            action := "IN", source := "inferred_from_activity" }
            :: infer_go box rest (dict_set st pid "IN")
        else infer_go box rest st
      | none => infer_go box rest st
    else infer_go box rest st

/-- `_infer_reentries_from_activity`.  The `none` results model the raised
exceptions: `int(...)` on a missing substitution player id, and the `KeyError`
of `pd.DataFrame(all_events).sort_values(...)` when the combined event list is
empty (a column-less frame). -/

def infer_reentries (box : List BoxRow) (subs : List Row)
    (acts : List ActivityRow) : Option (List StatusChange) :=
  match comb_sub_events subs with
  | none => none
  | some sub_events =>
    match sub_events ++
        acts.map (fun a => CombEvent.act a.period a.wallClockInt a.playerId) with
    | [] => none
    | all_events =>
      some (infer_go box (List.insertionSort comb_sort all_events) [])

/-- One player court-time interval of the hybrid tracker. -/

structure PlayerInterval where
  gameId : String
  playerId : Int
  teamId : Int
  period_start : Int
  wallClock_start : Int
  period_end : Int
  wallClock_end : Int

deriving DecidableEq, Repr

/-- Python dict assignment for the entry-times dict. -/

def entry_set (entries : List (Int × Int × Int × Int)) (pid : Int)
    (v : Int × Int × Int) : List (Int × Int × Int × Int) :=
  if (entries.find? (fun kv => kv.1 == pid)).isSome then
    entries.map (fun kv => if kv.1 = pid then (kv.1, v) else kv)
  else entries ++ [(pid, v)]

/-- Python `d.get`/membership for the entry-times dict. -/

def entry_get (entries : List (Int × Int × Int × Int)) (pid : Int) :
    Option (Int × Int × Int) :=
  (entries.find? (fun kv => kv.1 == pid)).map (fun kv => kv.2)

/-- Python `del d[k]`. -/

def entry_del (entries : List (Int × Int × Int × Int)) (pid : Int) :
    List (Int × Int × Int × Int) :=
  entries.filter (fun kv => kv.1 ≠ pid)

/-- The scan of `_build_intervals_from_status_changes`, returning the closed
intervals and the final entry dict. -/

def intervals_go (game_id : String) : List StatusChange →
    List (Int × Int × Int × Int) →
    (List PlayerInterval × List (Int × Int × Int × Int))
  | [], entries => ([], entries)
  | c :: rest, entries =>
    if c.action = "START" ∨ c.action = "IN" then
      intervals_go game_id rest
        (entry_set entries c.playerId (c.period, c.wallClockInt, c.teamId))
    else if c.action = "OUT" then
      match entry_get entries c.playerId with
      | some v =>
        let step := intervals_go game_id rest (entry_del entries c.playerId)
        ({ gameId := game_id, playerId := c.playerId, teamId := v.2.2,
           period_start := v.1, wallClock_start := v.2.1,
           period_end := c.period, wallClock_end := c.wallClockInt } :: step.1,
          step.2)
      | none => intervals_go game_id rest entries
    else intervals_go game_id rest entries

/-- `_build_intervals_from_status_changes`: closed intervals from the scan,
then one interval per player still on court, ending at the game end. -/

def build_intervals_from_status_changes (status : List StatusChange)
    (game_id : String) (game_end : Int) : List PlayerInterval :=
  (intervals_go game_id status []).1 ++
    (intervals_go game_id status []).2.map (fun kv =>
      { gameId := game_id, playerId := kv.1, teamId := kv.2.2.2,
        period_start := kv.2.1, wallClock_start := kv.2.2.1,
        period_end := (status.map (fun c => c.period)).foldl max 0,
        wallClock_end := game_end })

/-- Sort of the status-change timeline
(`sort_values(['period', 'wallClockInt', 'action'])`); `compare` realizes the
lexicographic order on the action strings (IN < OUT < START). -/

def status_sort (a b : StatusChange) : Prop :=
  a.period < b.period ∨ (a.period = b.period ∧ (a.wallClockInt < b.wallClockInt ∨
    (a.wallClockInt = b.wallClockInt ∧ compare a.action b.action ≠ Ordering.gt)))

instance : DecidableRel status_sort := fun a b => by
  unfold status_sort
  exact inferInstanceAs (Decidable (_ ∨ _))

/-- `_build_hybrid_intervals`.  The `none` results model the exceptions and
NaN-poisoned aggregates of empty frames (empty play-by-play, missing period-1
rows, a missing substitution player id, the column-less-frame `KeyError` of
`_infer_reentries_from_activity`, and the same `KeyError` of
`pd.DataFrame(status_changes).sort_values(...)` when the status-change list is
empty). -/

def build_hybrid_intervals (starters : List (Int × List Int))
    (box : List BoxRow) (subs : List Row) (acts : List ActivityRow)
    (pbp : List Row) : Option (List PlayerInterval) :=
  match pbp.head? with
  | none => none
  | some r0 =>
    match (pbp.filter (fun r => r.period = 1)).head? with
    | none => none
    | some q0 =>
      match (pbp.filter (fun r =>
          r.period = (pbp.map (fun x => x.period)).foldl max r0.period)).head? with
      | none => none
      | some q1 =>
        match sub_status_changes box subs with
        | none => none
        | some subchanges =>
          match infer_reentries box subs acts with
          | none => none
          | some inferred =>
            match (starters.flatMap (fun tv => tv.2.map (fun pid =>
                ({ period := 1,
                   wallClockInt := ((pbp.filter (fun r => r.period = 1)).map
                     (fun r => r.wallClockInt)).foldl min q0.wallClockInt,
                   playerId := pid, teamId := tv.1, action := "START",
                   source := "starter" } : StatusChange)))) ++
                subchanges ++ inferred with
            | [] => none
            | status_changes =>
              some (build_intervals_from_status_changes
                (List.insertionSort status_sort status_changes)
                r0.gameId
                (((pbp.filter (fun r =>
                  r.period = (pbp.map (fun x => x.period)).foldl max r0.period)).map
                    (fun r => r.wallClockInt)).foldl max q1.wallClockInt))

/-- `track_lineup_states`: the `_get_player_activities` `KeyError` (raised
before `_build_hybrid_intervals` runs) propagates as `none`. -/

def track_lineup_states (box : List BoxRow) (pbp : List Row) :
    Option (List PlayerInterval) :=
  match get_player_activities pbp with
  | none => none
  | some acts =>
    build_hybrid_intervals (get_starting_lineups box) box
      (get_substitution_events pbp) acts pbp

/-- The on-court player set of one team at a probe instant, read from the
hybrid intervals by containment (as the rim-defense join does). -/

def on_court_at (ivs : List PlayerInterval) (tid : Int) (p t : Int) : List Int :=
  (ivs.filter (fun iv =>
    decide (iv.teamId = tid) && decide (iv.period_start ≤ p) &&
    decide (iv.period_end ≥ p) && decide (iv.wallClock_start ≤ t) &&
    decide (iv.wallClock_end ≥ t))).map (fun iv => iv.playerId)

end CourtTime

/-! ### Concrete scenarios shared by the two lineup trackers -/

/-- Box score with a malformed team A: only four designated starters. -/

def cex4_box : List Pbp.BoxRow :=
  [⟨"A", 1, 1, some "F", 1⟩, ⟨"A", 2, 1, some "F", 1⟩, ⟨"A", 3, 1, some "F", 1⟩,
   ⟨"A", 4, 1, some "F", 1⟩,
   ⟨"B", 11, 2, some "G", 1⟩, ⟨"B", 12, 2, some "G", 1⟩, ⟨"B", 13, 2, some "G", 1⟩,
   ⟨"B", 14, 2, some "G", 1⟩, ⟨"B", 15, 2, some "G", 1⟩]

/-- Play-by-play for the malformed-starters scenario: a period-start event and
one activity event (a made shot by player 1), so the activity frame of the
hybrid tracker is non-empty. -/

def cex4_pbp : List Pbp.Row :=
  [⟨"g", 1, 720, 1000, 10, "A", none, none, none⟩,
   ⟨"g", 1, 650, 1500, 1, "A", some 1, none, none⟩]

/-- Well-formed box score: team A has starters 1..5 and bench player 6, team B
has starters 11..15. -/

def cex10_box : List Pbp.BoxRow :=
  [⟨"A", 1, 1, some "F", 1⟩, ⟨"A", 2, 1, some "F", 1⟩, ⟨"A", 3, 1, some "F", 1⟩,
   ⟨"A", 4, 1, some "F", 1⟩, ⟨"A", 5, 1, some "F", 1⟩, ⟨"A", 6, 1, none, 0⟩,
   ⟨"B", 11, 2, some "G", 1⟩, ⟨"B", 12, 2, some "G", 1⟩, ⟨"B", 13, 2, some "G", 1⟩,
   ⟨"B", 14, 2, some "G", 1⟩, ⟨"B", 15, 2, some "G", 1⟩]

/-- Play-by-play with one activity event (a made shot by player 1, keeping the
hybrid tracker's activity frame non-empty) and one substitution event:
`playerId1 = 6`, `playerId2 = 5`, on team A mid-period. -/

def cex10_pbp : List Pbp.Row :=
  [⟨"g", 1, 720, 1000, 10, "A", none, none, none⟩,
   ⟨"g", 1, 700, 1200, 1, "A", some 1, none, none⟩,
   ⟨"g", 1, 600, 2000, 8, "A", some 6, some 5, none⟩,
   ⟨"g", 1, 300, 3000, 10, "A", none, none, none⟩]

namespace LineupRatings

/-! ### Lineup ratings (src/lineups/transformers/lineup_ratings.py) -/

/-- One row of the matched lineup-possession table, restricted to the fields
the rating aggregation reads. -/

structure LPRow where
  possession_id : Int
  off_team : String
  def_team : String
  points_scored : Int
  off_player_1 : Int
  off_player_2 : Int
  off_player_3 : Int
  off_player_4 : Int
  off_player_5 : Int
  def_player_1 : Int
  def_player_2 : Int
  def_player_3 : Int
  def_player_4 : Int
  def_player_5 : Int

deriving DecidableEq, Repr

/-- `tuple(sorted([...]))` over five player ids. -/

def sort5 (a b c d e : Int) : List Int :=
  List.insertionSort (fun x y : Int => x ≤ y) [a, b, c, d, e]

/-- The offensive grouping key `(off_team, lineup_players)`. -/

def off_key (r : LPRow) : String × List Int :=
  (r.off_team, sort5 r.off_player_1 r.off_player_2 r.off_player_3
    r.off_player_4 r.off_player_5)

/-- The defensive grouping key `(def_team, lineup_players)`. -/

def def_key (r : LPRow) : String × List Int :=
  (r.def_team, sort5 r.def_player_1 r.def_player_2 r.def_player_3
    r.def_player_4 r.def_player_5)

/-- One side's aggregate row (possession count and point sum per group). -/

structure SideStat where
  team : String
  lineup_players : List Int
  poss : Nat
  points : Int

deriving DecidableEq, Repr

/-- `calculate_offensive_stats`: group by the offensive key, count possessions
and sum points.  Group-key enumeration order is immaterial to the stated
properties (pandas sorts it); first-occurrence order is used here. -/

def calculate_offensive_stats (df : List LPRow) : List SideStat :=
  (firstOccDedup (df.map off_key)).map (fun k =>
    { team := k.1
      lineup_players := k.2
      poss := (df.filter (fun r => off_key r = k)).length
      points := ((df.filter (fun r => off_key r = k)).map
        (fun r => r.points_scored)).sum })

/-- `calculate_defensive_stats`. -/

def calculate_defensive_stats (df : List LPRow) : List SideStat :=
  (firstOccDedup (df.map def_key)).map (fun k =>
    { team := k.1
      lineup_players := k.2
      poss := (df.filter (fun r => def_key r = k)).length
      points := ((df.filter (fun r => def_key r = k)).map
        (fun r => r.points_scored)).sum })

/-- Combined per-lineup counters after the outer join with `fillna(0)`. -/

structure CombinedStat where
  team : String
  lineup_players : List Int
  off_poss : Nat
  off_points : Int
  def_poss : Nat
  def_points_allowed : Int

deriving DecidableEq, Repr

/-- `combine_offensive_defensive_stats`: full outer join on
`(team, lineup_players)` with zero fill.  The union key list keeps the left
keys then the right-only keys (pandas sorts the union; the order is immaterial
to the stated properties). -/

def combine_offensive_defensive_stats (off_stats def_stats : List SideStat) :
    List CombinedStat :=
  ((off_stats.map (fun s => (s.team, s.lineup_players))) ++
    ((def_stats.map (fun s => (s.team, s.lineup_players))).filter
      (fun k => k ∉ off_stats.map (fun s => (s.team, s.lineup_players))))).map
    (fun k =>
      { team := k.1
        lineup_players := k.2
        off_poss := ((off_stats.find? (fun s => (s.team, s.lineup_players) = k)).map
          (fun s => s.poss)).getD 0
        off_points := ((off_stats.find? (fun s => (s.team, s.lineup_players) = k)).map
          (fun s => s.points)).getD 0
        def_poss := ((def_stats.find? (fun s => (s.team, s.lineup_players) = k)).map
          (fun s => s.poss)).getD 0
        def_points_allowed := ((def_stats.find? (fun s => (s.team, s.lineup_players) = k)).map
          (fun s => s.points)).getD 0 })

/-- Banker's rounding to an integer (`numpy.round` rounds half to even). -/

def round_half_even (q : ℚ) : ℤ :=
  if q - ⌊q⌋ < 1/2 then ⌊q⌋
  else if q - ⌊q⌋ > 1/2 then ⌊q⌋ + 1
  else if ⌊q⌋ % 2 = 0 then ⌊q⌋ else ⌊q⌋ + 1

/-- `.round(1)`: one decimal place. -/

def round1 (q : ℚ) : ℚ := (round_half_even (q * 10) : ℚ) / 10

/-- The raw (pre-rounding) offensive rating
`np.where(off_poss > 0, off_points / off_poss * 100, 0)`. -/

def raw_off_rating (s : CombinedStat) : ℚ :=
  if s.off_poss > 0 then (s.off_points : ℚ) / (s.off_poss : ℚ) * 100 else 0

/-- The raw (pre-rounding) defensive rating. -/

def raw_def_rating (s : CombinedStat) : ℚ :=
  if s.def_poss > 0 then (s.def_points_allowed : ℚ) / (s.def_poss : ℚ) * 100 else 0

/-- One output row of the ratings table. -/

structure RatingRow extends CombinedStat where
  off_rating : ℚ
  def_rating : ℚ
  net_rating : ℚ

deriving DecidableEq, Repr

/-- `calculate_final_ratings`: the net rating subtracts the raw ratings and
only then are all three columns rounded to one decimal place. -/

def calculate_final_ratings (df : List CombinedStat) : List RatingRow :=
  df.map (fun s =>
    { toCombinedStat := s
      off_rating := round1 (raw_off_rating s)
      def_rating := round1 (raw_def_rating s)
      net_rating := round1 (raw_off_rating s - raw_def_rating s) })

/-- Sort of `clean_final_output` (`team` ascending, `off_poss` descending,
`net_rating` descending); `compare` realizes the lexicographic order on the
team strings. -/

def final_sort (a b : RatingRow) : Prop :=
  compare a.team b.team = Ordering.lt ∨ (a.team = b.team ∧
    (b.off_poss < a.off_poss ∨ (a.off_poss = b.off_poss ∧
      b.net_rating ≤ a.net_rating)))

instance : DecidableRel final_sort := fun a b => by
  unfold final_sort; infer_instance

/-- `clean_final_output` (the row contents are unchanged, only reordered). -/

def clean_final_output (df : List RatingRow) : List RatingRow :=
  List.insertionSort final_sort df

/-- `calculate_lineup_ratings`. -/

def calculate_lineup_ratings (df : List LPRow) : List RatingRow :=
  if df.isEmpty then []
  else clean_final_output (calculate_final_ratings
    (combine_offensive_defensive_stats (calculate_offensive_stats df)
      (calculate_defensive_stats df)))

/-- Concrete matched possession row used as C5 witness data. -/

def wit5_row : LPRow :=
  ⟨1, "HOU", "DAL", 2, 5, 4, 3, 2, 1, 11, 12, 13, 14, 15⟩

end LineupRatings

theorem mem_firstOccDedup {α : Type} [DecidableEq α] {x : α} :
    ∀ {l : List α}, x ∈ firstOccDedup l ↔ x ∈ l := by
  intro l
  induction l with
  | nil => simp [firstOccDedup]
  | cons a l ih =>
    by_cases hx : x = a
    · subst hx; simp [firstOccDedup]
    · simp [firstOccDedup, hx, ih]

theorem nodup_firstOccDedup {α : Type} [DecidableEq α] :
    ∀ (l : List α), (firstOccDedup l).Nodup := by
  intro l
  induction l with
  | nil => simp [firstOccDedup]
  | cons a l ih =>
    refine List.Nodup.cons ?_ (ih.filter _)
    intro hmem
    rcases List.mem_filter.mp hmem with ⟨-, hne⟩
    simp at hne

theorem countP_split {α : Type} (p q : α → Bool) (l : List α) :
    l.countP (fun a => p a && q a) + l.countP (fun a => p a && !q a) = l.countP p := by
  induction l with
  | nil => rfl
  | cons a l ih =>
    rw [List.countP_cons, List.countP_cons, List.countP_cons]
    by_cases hp : p a <;> by_cases hq : q a <;> simp [hp, hq] <;> omega

namespace RimDefense

theorem stats_of_nil (pid : Int) : stats_of [] pid = none := rfl

theorem stats_of_cons (kv : Int × PStats) (m : List (Int × PStats)) (pid : Int) :
    stats_of (kv :: m) pid = if kv.1 = pid then some kv.2 else stats_of m pid := by
  by_cases h : kv.1 = pid <;> simp [stats_of, List.find?_cons, h]

theorem stats_of_append_single (m : List (Int × PStats)) (kv : Int × PStats) (pid : Int) :
    stats_of (m ++ [kv]) pid =
      (stats_of m pid).or (if kv.1 = pid then some kv.2 else none) := by
  cases hf : m.find? (fun kv => kv.1 == pid) with
  | none => by_cases h : kv.1 = pid <;>
      simp [stats_of, List.find?_append, List.find?_cons, h, hf]
  | some kv0 => by_cases h : kv.1 = pid <;>
      simp [stats_of, List.find?_append, List.find?_cons, h, hf]

theorem stats_of_init_self (m : List (Int × PStats)) (pid tid : Int) :
    stats_of (stats_init m pid tid) pid =
      some ((stats_of m pid).getD ⟨0, 0, 0, 0, tid⟩) := by
  unfold stats_init
  by_cases h : (m.find? (fun kv => kv.1 == pid)).isSome
  · rcases Option.isSome_iff_exists.mp h with ⟨kv, hkv⟩
    simp [h, stats_of, hkv]
  · have hnone : m.find? (fun kv => kv.1 == pid) = none := by
      cases hf : m.find? (fun kv => kv.1 == pid) with
      | none => rfl
      | some kv => rw [hf] at h; simp at h
    have : stats_of m pid = none := by simp [stats_of, hnone]
    simp [h, stats_of_append_single, this]

theorem stats_of_init_other (m : List (Int × PStats)) (pid tid q : Int) (hq : q ≠ pid) :
    stats_of (stats_init m pid tid) q = stats_of m q := by
  unfold stats_init
  by_cases h : (m.find? (fun kv => kv.1 == pid)).isSome
  · rw [if_pos h]
  · rw [if_neg h, stats_of_append_single]
    simp [Ne.symm hq]

theorem stats_of_map_modify (m : List (Int × PStats)) (pid : Int) (f : PStats → PStats)
    (q : Int) :
    stats_of (m.map (fun kv => if kv.1 = pid then (kv.1, f kv.2) else kv)) q =
      if q = pid then (stats_of m q).map f else stats_of m q := by
  induction m with
  | nil => by_cases h : q = pid <;> simp [stats_of, h]
  | cons kv m ih =>
    by_cases h1 : kv.1 = pid
    · by_cases h2 : q = pid
      · subst h2
        simp [List.map_cons, stats_of_cons, h1]
      · have hne : kv.1 ≠ q := fun h => h2 (h.symm.trans h1)
        have hne2 : pid ≠ q := fun h => h2 h.symm
        simp [List.map_cons, stats_of_cons, h1, hne, hne2, ih, h2]
    · by_cases h2 : q = pid
      · subst h2
        simp [List.map_cons, stats_of_cons, h1, ih]
      · by_cases h3 : kv.1 = q <;>
          simp [List.map_cons, stats_of_cons, h1, h2, h3, ih]

theorem stats_of_update_self (m : List (Int × PStats)) (pid : Int) (made oc : Bool)
    (tid : Int) :
    stats_of (update_player m pid made oc tid) pid =
      some (bump_stats made oc ((stats_of m pid).getD ⟨0, 0, 0, 0, tid⟩)) := by
  unfold update_player
  rw [stats_of_map_modify, if_pos rfl, stats_of_init_self]
  rfl

theorem stats_of_update_other (m : List (Int × PStats)) (pid : Int) (made oc : Bool)
    (tid q : Int) (hq : q ≠ pid) :
    stats_of (update_player m pid made oc tid) q = stats_of m q := by
  unfold update_player
  rw [stats_of_map_modify, if_neg hq, stats_of_init_other _ _ _ _ hq]

theorem att_update_self (m : List (Int × PStats)) (pid : Int) (made oc : Bool) (tid : Int) :
    on_att (update_player m pid made oc tid) pid = on_att m pid + (if oc then 1 else 0) ∧
    off_att (update_player m pid made oc tid) pid = off_att m pid + (if oc then 0 else 1) := by
  unfold on_att off_att
  rw [stats_of_update_self]
  cases hst : stats_of m pid <;> cases oc <;> simp [bump_stats, hst]

theorem att_update_other (m : List (Int × PStats)) (pid : Int) (made oc : Bool)
    (tid q : Int) (hq : q ≠ pid) :
    on_att (update_player m pid made oc tid) q = on_att m q ∧
    off_att (update_player m pid made oc tid) q = off_att m q := by
  unfold on_att off_att
  rw [stats_of_update_other _ _ _ _ _ _ hq]
  exact ⟨rfl, rfl⟩

theorem fold_roster_other (defenders : List Int) (made : Bool) (tid : Int) :
    ∀ (roster : List Int) (m : List (Int × PStats)) (q : Int), q ∉ roster →
      stats_of (roster.foldl
        (fun acc pid => update_player acc pid made (defenders.contains pid) tid) m) q =
      stats_of m q := by
  intro roster
  induction roster with
  | nil => intro m q _; rfl
  | cons p rest ih =>
    intro m q hq
    rw [List.foldl_cons, ih _ _ (fun h => hq (List.mem_cons_of_mem _ h)),
      stats_of_update_other _ _ _ _ _ _
        (fun h => hq (by rw [h]; exact List.mem_cons_self _ _))]

theorem fold_roster_self (defenders : List Int) (made : Bool) (tid : Int) :
    ∀ (roster : List Int) (m : List (Int × PStats)) (q : Int), roster.Nodup →
      q ∈ roster →
      on_att (roster.foldl
        (fun acc pid => update_player acc pid made (defenders.contains pid) tid) m) q =
        on_att m q + (if defenders.contains q then 1 else 0) ∧
      off_att (roster.foldl
        (fun acc pid => update_player acc pid made (defenders.contains pid) tid) m) q =
        off_att m q + (if defenders.contains q then 0 else 1) := by
  intro roster
  induction roster with
  | nil => intro m q _ hq; exact absurd hq (List.not_mem_nil q)
  | cons p rest ih =>
    intro m q hnd hq
    rw [List.foldl_cons]
    rcases List.mem_cons.mp hq with hqp | hqrest
    · subst hqp
      have hnotin : q ∉ rest := (List.nodup_cons.mp hnd).1
      have hpres := fold_roster_other defenders made tid rest
        (update_player m q made (defenders.contains q) tid) q hnotin
      constructor
      · show on_att _ q = _
        unfold on_att
        rw [hpres]
        exact (att_update_self m q made (defenders.contains q) tid).1
      · show off_att _ q = _
        unfold off_att
        rw [hpres]
        exact (att_update_self m q made (defenders.contains q) tid).2
    · have hqp : q ≠ p := fun h => (List.nodup_cons.mp hnd).1 (h ▸ hqrest)
      have := ih (update_player m p made (defenders.contains p) tid) q
        (List.nodup_cons.mp hnd).2 hqrest
      rcases this with ⟨h1, h2⟩
      rw [h1, h2, (att_update_other m p made (defenders.contains p) tid q hqp).1,
        (att_update_other m p made (defenders.contains p) tid q hqp).2]
      exact ⟨rfl, rfl⟩

theorem mem_keys_of_mapping (intervals : List Interval) (pid : Int) (t : Int)
    (h : get_player_team_mapping intervals pid = some t) :
    pid ∈ player_team_keys intervals := by
  unfold get_player_team_mapping at h
  cases hl : (intervals.filter (fun iv => iv.playerId = pid)).getLast? with
  | none => rw [hl] at h; exact absurd h (by simp)
  | some iv =>
    rcases List.getLast?_eq_some_iff.mp hl with ⟨ys, hys⟩
    have hivmem : iv ∈ intervals.filter (fun iv => iv.playerId = pid) := by
      rw [hys]; exact List.mem_append_right _ (List.mem_singleton_self iv)
    rcases List.mem_filter.mp hivmem with ⟨hmem, hpid⟩
    have hpid2 : iv.playerId = pid := by simpa using hpid
    exact mem_firstOccDedup.mpr (hpid2 ▸ List.mem_map_of_mem _ hmem)

theorem process_shot_att (intervals : List Interval) (m : List (Int × PStats)) (s : Shot)
    (pid : Int) :
    on_att (process_shot intervals m s) pid = on_att m pid +
      (if counts_against intervals pid s && on_court_for_shot intervals pid s
        then 1 else 0) ∧
    off_att (process_shot intervals m s) pid = off_att m pid +
      (if counts_against intervals pid s && !on_court_for_shot intervals pid s
        then 1 else 0) := by
  unfold process_shot counts_against on_court_for_shot
  cases hoff : s.offTeamId with
  | none => cases s.defTeamId <;> simp
  | some o =>
    cases hdef : s.defTeamId with
    | none => simp
    | some d =>
      simp only
      by_cases hmem : pid ∈ (player_team_keys intervals).filter
          (fun p => get_player_team_mapping intervals p == some d)
      · have hcnt : (get_player_team_mapping intervals pid == some d) = true :=
          (List.mem_filter.mp hmem).2
        have hnd : ((player_team_keys intervals).filter
            (fun p => get_player_team_mapping intervals p == some d)).Nodup :=
          (nodup_firstOccDedup _).filter _
        have := fold_roster_self (defending_players intervals s d) (s.msgType == 1) d
          _ m pid hnd hmem
        rw [this.1, this.2]
        simp [hcnt]
      · have hpres := fold_roster_other (defending_players intervals s d)
          (s.msgType == 1) d _ m pid hmem
        have hcnt : (get_player_team_mapping intervals pid == some d) = false := by
          by_contra hc
          have : get_player_team_mapping intervals pid = some d := by
            have := eq_true_of_ne_false hc
            exact of_decide_eq_true (by simpa using this)
          exact hmem (List.mem_filter.mpr
            ⟨mem_keys_of_mapping intervals pid d this, by simp [this]⟩)
        unfold on_att off_att
        rw [hpres]
        simp [hcnt]

theorem foldl_process_att (intervals : List Interval) (pid : Int) :
    ∀ (shots : List Shot) (m : List (Int × PStats)),
      on_att (shots.foldl (process_shot intervals) m) pid = on_att m pid +
        shots.countP (fun s => counts_against intervals pid s &&
          on_court_for_shot intervals pid s) ∧
      off_att (shots.foldl (process_shot intervals) m) pid = off_att m pid +
        shots.countP (fun s => counts_against intervals pid s &&
          !on_court_for_shot intervals pid s) := by
  intro shots
  induction shots with
  | nil => intro m; simp
  | cons s rest ih =>
    intro m
    rw [List.foldl_cons]
    rcases ih (process_shot intervals m s) with ⟨h1, h2⟩
    rcases process_shot_att intervals m s pid with ⟨g1, g2⟩
    rw [h1, h2, g1, g2, List.countP_cons, List.countP_cons]
    constructor <;> split <;> omega

theorem keys_stats_init (m : List (Int × PStats)) (pid tid : Int) :
    (stats_init m pid tid).map Prod.fst = m.map Prod.fst ∨
    (stats_init m pid tid).map Prod.fst = m.map Prod.fst ++ [pid] := by
  unfold stats_init
  by_cases h : (m.find? (fun kv => kv.1 == pid)).isSome
  · rw [if_pos h]; exact Or.inl rfl
  · rw [if_neg h]; right; simp

theorem keys_nodup_stats_init (m : List (Int × PStats)) (pid tid : Int)
    (hnd : (m.map Prod.fst).Nodup) : ((stats_init m pid tid).map Prod.fst).Nodup := by
  unfold stats_init
  by_cases h : (m.find? (fun kv => kv.1 == pid)).isSome
  · rw [if_pos h]; exact hnd
  · rw [if_neg h]
    have hnone : m.find? (fun kv => kv.1 == pid) = none := by
      cases hf : m.find? (fun kv => kv.1 == pid) with
      | none => rfl
      | some kv => rw [hf] at h; simp at h
    have hnotin : pid ∉ m.map Prod.fst := by
      intro hmem
      rcases List.mem_map.mp hmem with ⟨kv, hkv, hfst⟩
      have := List.find?_eq_none.mp hnone kv hkv
      simp [hfst] at this
    simp [List.nodup_append, hnd, hnotin]

theorem keys_update_player (m : List (Int × PStats)) (pid : Int) (made oc : Bool)
    (tid : Int) :
    (update_player m pid made oc tid).map Prod.fst = (stats_init m pid tid).map Prod.fst := by
  unfold update_player
  rw [List.map_map]
  refine List.map_congr_left ?_
  intro kv _
  by_cases h : kv.1 = pid <;> simp [h]

theorem keys_nodup_update_player (m : List (Int × PStats)) (pid : Int) (made oc : Bool)
    (tid : Int) (hnd : (m.map Prod.fst).Nodup) :
    ((update_player m pid made oc tid).map Prod.fst).Nodup := by
  rw [keys_update_player]
  exact keys_nodup_stats_init m pid tid hnd

theorem keys_nodup_fold_roster (defenders : List Int) (made : Bool) (tid : Int) :
    ∀ (roster : List Int) (m : List (Int × PStats)), (m.map Prod.fst).Nodup →
      ((roster.foldl
        (fun acc pid => update_player acc pid made (defenders.contains pid) tid)
        m).map Prod.fst).Nodup := by
  intro roster
  induction roster with
  | nil => intro m h; exact h
  | cons p rest ih =>
    intro m h
    rw [List.foldl_cons]
    exact ih _ (keys_nodup_update_player m p made (defenders.contains p) tid h)

theorem keys_nodup_process_shot (intervals : List Interval) (m : List (Int × PStats))
    (s : Shot) (hnd : (m.map Prod.fst).Nodup) :
    ((process_shot intervals m s).map Prod.fst).Nodup := by
  unfold process_shot
  cases s.offTeamId with
  | none => cases s.defTeamId <;> exact hnd
  | some o => cases s.defTeamId with
    | none => exact hnd
    | some d => exact keys_nodup_fold_roster _ _ _ _ m hnd

theorem keys_nodup_fold_shots (intervals : List Interval) :
    ∀ (shots : List Shot) (m : List (Int × PStats)), (m.map Prod.fst).Nodup →
      ((shots.foldl (process_shot intervals) m).map Prod.fst).Nodup := by
  intro shots
  induction shots with
  | nil => intro m h; exact h
  | cons s rest ih =>
    intro m h
    rw [List.foldl_cons]
    exact ih _ (keys_nodup_process_shot intervals m s h)

theorem stats_of_of_mem_nodup :
    ∀ (m : List (Int × PStats)) (kv : Int × PStats), (m.map Prod.fst).Nodup →
      kv ∈ m → stats_of m kv.1 = some kv.2 := by
  intro m
  induction m with
  | nil => intro kv _ h; exact absurd h (List.not_mem_nil kv)
  | cons hd m ih =>
    intro kv hnd hmem
    rcases List.mem_cons.mp hmem with heq | hrest
    · subst heq
      rw [stats_of_cons, if_pos rfl]
    · have hne : hd.1 ≠ kv.1 := by
        intro h
        have : hd.1 ∈ m.map Prod.fst := h ▸ List.mem_map_of_mem Prod.fst hrest
        exact (List.nodup_cons.mp (by simpa using hnd)).1 this
      rw [stats_of_cons, if_neg hne]
      exact ih kv (List.nodup_cons.mp (by simpa using hnd)).2 hrest

theorem track_rim_defense_row_shape (pbp : List Shot) (intervals : List Interval)
    (row : RimRow) (hrow : row ∈ track_rim_defense pbp intervals) :
    ∃ st : PStats,
      stats_of ((pbp.filter (fun s => s.is_rim_shot)).foldl (process_shot intervals) [])
          row.playerId = some st ∧
      row = mk_rim_row row.playerId st := by
  unfold track_rim_defense calculate_rim_defense_stats at hrow
  rcases List.mem_map.mp hrow with ⟨kv, hkv, hmk⟩
  have hnd : ((((pbp.filter (fun s => s.is_rim_shot)).foldl (process_shot intervals)
      [])).map Prod.fst).Nodup := keys_nodup_fold_shots intervals _ [] (by simp)
  have hst := stats_of_of_mem_nodup _ kv hnd hkv
  have hpid : row.playerId = kv.1 := by rw [← hmk]; rfl
  exact ⟨kv.2, by rw [hpid]; exact hst, by rw [hpid, ← hmk]⟩

/-- Evaluation of the concrete rim-defense input: the (Nat/Int-valued) stats
fold computes one accumulator entry for player 20, so the output is the single
row built from it. -/

theorem cex_track_eval :
    track_rim_defense [cex_shot] [cex_interval] = [mk_rim_row 20 ⟨1, 1, 0, 0, 2⟩] := rfl

/-- Membership of the single concrete row in the concrete output. -/

theorem cex_row_mem :
    mk_rim_row 20 ⟨1, 1, 0, 0, 2⟩ ∈ track_rim_defense [cex_shot] [cex_interval] := by
  rw [cex_track_eval]
  exact List.mem_singleton_self _

/-- C6: in the output of `track_rim_defense`, every defending-roster player is
credited exactly once per qualifying rim shot — the on-court attempt counter
counts exactly the qualifying shots with the player on court, the off-court
counter exactly those with the player off court, and their sum is the total
number of rim shots (with known teams) against the player's team. -/

theorem rim_defense_exactly_once (pbp : List Shot) (intervals : List Interval)
    (row : RimRow) (hrow : row ∈ track_rim_defense pbp intervals) :
    row.rim_fga_on = ((pbp.filter (fun s => s.is_rim_shot)).filter
      (fun s => counts_against intervals row.playerId s &&
        on_court_for_shot intervals row.playerId s)).length ∧
    row.rim_fga_off = ((pbp.filter (fun s => s.is_rim_shot)).filter
      (fun s => counts_against intervals row.playerId s &&
        !on_court_for_shot intervals row.playerId s)).length ∧
    row.rim_fga_on + row.rim_fga_off = ((pbp.filter (fun s => s.is_rim_shot)).filter
      (fun s => counts_against intervals row.playerId s)).length := by
  rcases track_rim_defense_row_shape pbp intervals row hrow with ⟨st, hst, hshape⟩
  have hatt := foldl_process_att intervals row.playerId
    (pbp.filter (fun s => s.is_rim_shot)) []
  have hon0 : on_att ((pbp.filter (fun s => s.is_rim_shot)).foldl
      (process_shot intervals) []) row.playerId = st.on_attempts := by
    unfold on_att; rw [hst]; rfl
  have hoff0 : off_att ((pbp.filter (fun s => s.is_rim_shot)).foldl
      (process_shot intervals) []) row.playerId = st.off_attempts := by
    unfold off_att; rw [hst]; rfl
  have hfga_on : row.rim_fga_on = st.on_attempts := by
    rw [hshape]; rfl
  have hfga_off : row.rim_fga_off = st.off_attempts := by
    rw [hshape]; rfl
  have hon : row.rim_fga_on = (pbp.filter (fun s => s.is_rim_shot)).countP
      (fun s => counts_against intervals row.playerId s &&
        on_court_for_shot intervals row.playerId s) := by
    rw [hfga_on, ← hon0, hatt.1]; simp [on_att, stats_of]
  have hoff : row.rim_fga_off = (pbp.filter (fun s => s.is_rim_shot)).countP
      (fun s => counts_against intervals row.playerId s &&
        !on_court_for_shot intervals row.playerId s) := by
    rw [hfga_off, ← hoff0, hatt.2]; simp [off_att, stats_of]
  refine ⟨?_, ?_, ?_⟩
  · rw [hon, List.countP_eq_length_filter]
  · rw [hoff, List.countP_eq_length_filter]
  · rw [hon, hoff, countP_split, List.countP_eq_length_filter]

/-- C6 witness: on the concrete one-shot input the single output row for
player 20 was credited exactly once. -/

theorem rim_defense_exactly_once_witness :
    mk_rim_row 20 ⟨1, 1, 0, 0, 2⟩ ∈ track_rim_defense [cex_shot] [cex_interval] ∧
    (mk_rim_row 20 ⟨1, 1, 0, 0, 2⟩).rim_fga_on +
      (mk_rim_row 20 ⟨1, 1, 0, 0, 2⟩).rim_fga_off =
      (([cex_shot].filter (fun s => s.is_rim_shot)).filter
        (fun s => counts_against [cex_interval] 20 s)).length := by
  refine ⟨cex_row_mem, ?_⟩
  have h := (rim_defense_exactly_once [cex_shot] [cex_interval]
    (mk_rim_row 20 ⟨1, 1, 0, 0, 2⟩) cex_row_mem).2.2
  simpa using h

/-- C1 (amended): in the rim-defense output, the on/off percentage columns are
null exactly when the corresponding attempt count is zero, and otherwise equal
makes/attempts; but the differential column is never null — it is computed from
the raw percentages in which a zero-attempt bucket contributes makes/1 = 0,
before the percentage columns are nulled. -/

theorem rim_defense_null_handling (pbp : List Shot) (intervals : List Interval)
    (row : RimRow) (hrow : row ∈ track_rim_defense pbp intervals) :
    (row.rim_fga_off = 0 → row.rim_fg_pct_off = none) ∧
    (row.rim_fga_on = 0 → row.rim_fg_pct_on = none) ∧
    (0 < row.rim_fga_off →
      row.rim_fg_pct_off = some ((row.rim_fgm_off : ℚ) / (row.rim_fga_off : ℚ))) ∧
    (0 < row.rim_fga_on →
      row.rim_fg_pct_on = some ((row.rim_fgm_on : ℚ) / (row.rim_fga_on : ℚ))) ∧
    row.rim_fg_pct_diff = some
      ((row.rim_fgm_on : ℚ) / (if row.rim_fga_on = 0 then 1 else (row.rim_fga_on : ℚ)) -
       (row.rim_fgm_off : ℚ) / (if row.rim_fga_off = 0 then 1 else (row.rim_fga_off : ℚ))) := by
  rcases track_rim_defense_row_shape pbp intervals row hrow with ⟨st, -, hshape⟩
  rw [hshape]
  unfold mk_rim_row
  refine ⟨?_, ?_, ?_, ?_, ?_⟩
  · intro h
    simp only at h ⊢
    rw [if_neg]
    omega
  · intro h
    simp only at h ⊢
    rw [if_neg]
    omega
  · intro h
    simp only at h ⊢
    rw [if_pos h, if_neg (by omega)]
  · intro h
    simp only at h ⊢
    rw [if_pos h, if_neg (by omega)]
  · simp only

/-- C1 witness: on the concrete input the off-court bucket of player 20 is
empty and its percentage is null. -/

theorem rim_defense_null_handling_witness :
    mk_rim_row 20 ⟨1, 1, 0, 0, 2⟩ ∈ track_rim_defense [cex_shot] [cex_interval] ∧
    (mk_rim_row 20 ⟨1, 1, 0, 0, 2⟩).rim_fga_off = 0 ∧
    (mk_rim_row 20 ⟨1, 1, 0, 0, 2⟩).rim_fg_pct_off = none := by
  refine ⟨cex_row_mem, by decide, ?_⟩
  exact (rim_defense_null_handling [cex_shot] [cex_interval]
    (mk_rim_row 20 ⟨1, 1, 0, 0, 2⟩) cex_row_mem).1 (by decide)

/-- C1 counterexample: a player with zero off-court rim attempts has a null
off-court percentage but a NON-null differential (the claim asserts the
differential must be null as well). -/

theorem rim_defense_diff_not_null_cex :
    ∃ row ∈ track_rim_defense [cex_shot] [cex_interval],
      row.rim_fga_off = 0 ∧ row.rim_fg_pct_off = none ∧
      row.rim_fg_pct_diff = some 1 := by
  refine ⟨mk_rim_row 20 ⟨1, 1, 0, 0, 2⟩, cex_row_mem, by decide, ?_, ?_⟩
  · decide
  · show some ((1 : ℚ) / 1 - 0 / 1) = some 1
    norm_num

end RimDefense

namespace LineupPossessions

theorem getLast?_mem {α : Type} {l : List α} {g : α} (h : l.getLast? = some g) :
    g ∈ l := by
  rcases List.getLast?_eq_some_iff.mp h with ⟨ys, hys⟩
  rw [hys]
  exact List.mem_append_right _ (List.mem_singleton_self g)

theorem getLast_min_clock :
    ∀ {l : List LineupState}, List.Sorted clock_ge l → ∀ {g : LineupState},
      l.getLast? = some g → ∀ x ∈ l, g.game_clock_seconds ≤ x.game_clock_seconds := by
  intro l
  induction l with
  | nil => intro _ g hg; simp at hg
  | cons a rest ih =>
    intro hs g hg x hx
    cases hrest : rest with
    | nil =>
      subst hrest
      have : a = g := by simpa using hg
      subst this
      rcases List.mem_singleton.mp (by simpa using hx) with rfl
      exact le_refl _
    | cons b tl =>
      have hg2 : rest.getLast? = some g := by
        rw [hrest] at hg ⊢
        simpa [List.getLast?_cons_cons] using hg
      have hs2 := List.sorted_cons.mp hs
      rcases List.mem_cons.mp hx with rfl | hxr
      · have hgmem : g ∈ rest := getLast?_mem hg2
        exact hs2.1 g hgmem
      · exact ih hs2.2 hg2 x hxr

theorem mem_team_lineups {lineups : List LineupState} {team period : Int}
    {x : LineupState}
    (hx : x ∈ lineups.filter (fun l => l.team_id == team && l.period == period)) :
    x ∈ lineups ∧ x.team_id = team ∧ x.period = period := by
  rcases List.mem_filter.mp hx with ⟨hmem, hp⟩
  rw [Bool.and_eq_true, beq_iff_eq, beq_iff_eq] at hp
  exact ⟨hmem, hp.1, hp.2⟩

/-- C2: whenever the lineup-states table has at least one row for the probed
team and period, `find_lineup_at_time` returns a lineup (never the not-found
result), and if the probe time precedes every recorded state for that team and
period (every recorded clock is below the probe clock), the returned lineup is
a chronologically last known one: its clock is minimal among the recorded
states of that team and period. -/

theorem find_lineup_at_time_total (lineups : List LineupState)
    (period t team : Int)
    (h : ∃ l ∈ lineups, l.team_id = team ∧ l.period = period) :
    (∃ l, find_lineup_at_time lineups period t team = some l ∧ l ∈ lineups ∧
      l.team_id = team ∧ l.period = period) ∧
    ((∀ l ∈ lineups, l.team_id = team → l.period = period →
        l.game_clock_seconds < t) →
      ∃ l, find_lineup_at_time lineups period t team = some l ∧ l ∈ lineups ∧
        l.team_id = team ∧ l.period = period ∧
        ∀ l2 ∈ lineups, l2.team_id = team → l2.period = period →
          l.game_clock_seconds ≤ l2.game_clock_seconds) := by
  have hne : lineups.filter (fun l => l.team_id == team && l.period == period) ≠ [] := by
    rcases h with ⟨l, hl, h1, h2⟩
    intro hemp
    have hmem : l ∈ lineups.filter (fun l => l.team_id == team && l.period == period) :=
      List.mem_filter.mpr ⟨hl, by simp [h1, h2]⟩
    rw [hemp] at hmem
    exact absurd hmem (List.not_mem_nil l)
  have hie : (lineups.filter (fun l => l.team_id == team && l.period == period)).isEmpty
      = false := by
    cases he : lineups.filter (fun l => l.team_id == team && l.period == period) with
    | nil => exact absurd he hne
    | cons a l => rfl
  have hperm := List.perm_insertionSort clock_ge
    (lineups.filter (fun l => l.team_id == team && l.period == period))
  have hsorted := List.sorted_insertionSort clock_ge
    (lineups.filter (fun l => l.team_id == team && l.period == period))
  have hsne : List.insertionSort clock_ge
      (lineups.filter (fun l => l.team_id == team && l.period == period)) ≠ [] := by
    intro h0
    exact hne (List.Perm.eq_nil (h0 ▸ hperm.symm))
  have hmem_sort : ∀ x, x ∈ List.insertionSort clock_ge
      (lineups.filter (fun l => l.team_id == team && l.period == period)) →
      x ∈ lineups ∧ x.team_id = team ∧ x.period = period := fun x hx =>
    mem_team_lineups (hperm.mem_iff.mp hx)
  constructor
  · unfold find_lineup_at_time
    simp only [hie, Bool.false_eq_true, if_false]
    cases hact : (List.filter (fun l => decide (l.game_clock_seconds ≥ t))
        (List.insertionSort clock_ge
          (lineups.filter (fun l => l.team_id == team && l.period == period)))).getLast? with
    | some l =>
      have hl := hmem_sort l (List.mem_filter.mp (getLast?_mem hact)).1
      exact ⟨l, rfl, hl⟩
    | none =>
      cases hg : (List.insertionSort clock_ge
          (lineups.filter (fun l => l.team_id == team && l.period == period))).getLast? with
      | none =>
        exact absurd (List.getLast?_eq_none_iff.mp hg) hsne
      | some g =>
        exact ⟨g, rfl, hmem_sort g (getLast?_mem hg)⟩
  · intro hlt
    have hact : List.filter (fun l => decide (l.game_clock_seconds ≥ t))
        (List.insertionSort clock_ge
          (lineups.filter (fun l => l.team_id == team && l.period == period))) = [] := by
      rw [List.filter_eq_nil_iff]
      intro x hx
      rcases hmem_sort x hx with ⟨hm, h1, h2⟩
      simp only [decide_eq_true_eq, ge_iff_le, not_le]
      exact hlt x hm h1 h2
    cases hg : (List.insertionSort clock_ge
        (lineups.filter (fun l => l.team_id == team && l.period == period))).getLast? with
    | none => exact absurd (List.getLast?_eq_none_iff.mp hg) hsne
    | some g =>
      refine ⟨g, ?_, ?_⟩
      · unfold find_lineup_at_time
        simp only [hie, Bool.false_eq_true, if_false]
        rw [hact]
        simpa using hg
      · rcases hmem_sort g (getLast?_mem hg) with ⟨hm, h1, h2⟩
        refine ⟨hm, h1, h2, ?_⟩
        intro l2 hl2 e1 e2
        have hl2s : l2 ∈ List.insertionSort clock_ge
            (lineups.filter (fun l => l.team_id == team && l.period == period)) :=
          hperm.mem_iff.mpr (List.mem_filter.mpr ⟨hl2, by simp [e1, e2]⟩)
        exact getLast_min_clock hsorted hg l2 hl2s

/-- C2 witness: the table has a row for team 5 / period 1 and the probe at
clock 500 (earlier than every recorded state) still resolves to a lineup. -/

theorem find_lineup_at_time_total_witness :
    (∃ l ∈ [wit_state], l.team_id = 5 ∧ l.period = 1) ∧
    (∃ l, find_lineup_at_time [wit_state] 1 500 5 = some l ∧ l ∈ [wit_state] ∧
      l.team_id = 5 ∧ l.period = 1) := by
  refine ⟨⟨wit_state, List.mem_singleton_self _, rfl, rfl⟩, ?_⟩
  exact (find_lineup_at_time_total [wit_state] 1 500 5
    ⟨wit_state, List.mem_singleton_self _, rfl, rfl⟩).1

end LineupPossessions

namespace Possessions

theorem foldl_max_init_le : ∀ (l : List Int) (a : Int), a ≤ l.foldl max a := by
  intro l
  induction l with
  | nil => intro a; exact le_refl a
  | cons b l ih =>
    intro a
    exact le_trans (le_max_left a b) (ih (max a b))

theorem le_foldl_max : ∀ (l : List Int) (a : Int), ∀ x ∈ l, x ≤ l.foldl max a := by
  intro l
  induction l with
  | nil => intro a x hx; exact absurd hx (List.not_mem_nil x)
  | cons b l ih =>
    intro a x hx
    rcases List.mem_cons.mp hx with rfl | hxl
    · exact le_trans (le_max_right a x) (foldl_max_init_le l (max a x))
    · exact ih (max a b) x hxl

theorem clean_rows_mem : ∀ {vt : List Int} {es : List TimedEvent} {out : List PrepEvent},
    clean_rows vt es = some out → ∀ pe ∈ out, pe.toTimedEvent ∈ es := by
  intro vt es
  induction es with
  | nil =>
    intro out h pe hpe
    unfold clean_rows at h
    rcases Option.some.inj h with rfl
    exact absurd hpe (List.not_mem_nil pe)
  | cons e es ih =>
    intro out h pe hpe
    unfold clean_rows at h
    cases hdc : def_clean_calc vt (off_clean e) with
    | none => rw [hdc] at h; exact absurd h (by simp)
    | some dc =>
      rw [hdc] at h
      cases hrec : clean_rows vt es with
      | none => rw [hrec] at h; exact absurd h (by simp)
      | some rest =>
        rw [hrec] at h
        rcases Option.some.inj (by simpa using h) with rfl
        rcases List.mem_cons.mp hpe with rfl | hrest
        · exact List.mem_cons_self _ _
        · exact List.mem_cons_of_mem _ (ih hrec pe hrest)

theorem prepare_mem {pbp : List RawEvent} {prep : List PrepEvent}
    (h : prepare_pbp_data pbp = some prep) :
    ∀ pe ∈ prep, ∃ r ∈ pbp, pe.period = r.period ∧
      pe.game_clock_seconds = r.game_clock_seconds ∧
      pe.time_elapsed = maxClockOfPeriod pbp r.period - r.game_clock_seconds := by
  intro pe hpe
  unfold prepare_pbp_data at h
  have hsrt := clean_rows_mem h pe hpe
  have hperm := List.perm_insertionSort chronoLe (pbp.map (fun e =>
    ({ toRawEvent := e,
       time_elapsed := maxClockOfPeriod pbp e.period - e.game_clock_seconds } : TimedEvent)))
  have htimed := hperm.mem_iff.mp hsrt
  rcases List.mem_map.mp htimed with ⟨r, hr, heq⟩
  refine ⟨r, hr, ?_, ?_, ?_⟩
  · show pe.toTimedEvent.toRawEvent.period = r.period
    rw [← heq]
  · show pe.toTimedEvent.toRawEvent.game_clock_seconds = r.game_clock_seconds
    rw [← heq]
  · show pe.toTimedEvent.time_elapsed = _
    rw [← heq]

theorem ending_for_shape {pbp : List PrepEvent} {k : Nat} {play : PrepEvent} {e : Ending}
    (h : ending_for pbp k play = some e) :
    e.period = play.period ∧ e.end_time_seconds = play.game_clock_seconds ∧
    e.time_elapsed = play.time_elapsed ∧ e.pbp_idx = k := by
  unfold ending_for at h
  split at h
  · split at h
    · rcases Option.some.inj h with rfl; exact ⟨rfl, rfl, rfl, rfl⟩
    · exact absurd h (by simp)
  · split at h
    · split at h
      · rcases Option.some.inj h with rfl; exact ⟨rfl, rfl, rfl, rfl⟩
      · exact absurd h (by simp)
    · split at h
      · split at h
        · rcases Option.some.inj h with rfl; exact ⟨rfl, rfl, rfl, rfl⟩
        · exact absurd h (by simp)
      · split at h
        · rcases Option.some.inj h with rfl; exact ⟨rfl, rfl, rfl, rfl⟩
        · split at h
          · rcases Option.some.inj h with rfl; exact ⟨rfl, rfl, rfl, rfl⟩
          · exact absurd h (by simp)

theorem ending_idx_unique {pbp : List PrepEvent} {e : Ending}
    (h : e ∈ identify_possession_endings pbp) :
    ∃ play, pbp[e.pbp_idx]? = some play ∧ ending_for pbp e.pbp_idx play = some e := by
  unfold identify_possession_endings at h
  rcases List.mem_filterMap.mp h with ⟨⟨k, play⟩, hkmem, hef⟩
  have hidx : e.pbp_idx = k := (ending_for_shape hef).2.2.2
  have hk := List.mem_enumFrom (by simpa [List.enum] using hkmem)
  rcases hk with ⟨-, hlt, hval⟩
  refine ⟨play, ?_, by rw [hidx]; exact hef⟩
  rw [hidx, List.getElem?_eq_getElem (by omega : k < pbp.length)]
  simp only [Nat.sub_zero] at hval
  rw [hval]

theorem endings_shape {pbp : List PrepEvent} {e : Ending}
    (h : e ∈ identify_possession_endings pbp) :
    ∃ play ∈ pbp, e.period = play.period ∧
      e.end_time_seconds = play.game_clock_seconds ∧
      e.time_elapsed = play.time_elapsed := by
  rcases ending_idx_unique h with ⟨play, hget, hef⟩
  rcases ending_for_shape hef with ⟨h1, h2, h3, -⟩
  rcases List.getElem?_eq_some.mp hget with ⟨hlt, hval⟩
  exact ⟨play, hval ▸ List.getElem_mem hlt, h1, h2, h3⟩

theorem run_ids (pd : Int) : ∀ (es : List Ending) (cur other start : Int) (pid : Nat),
    (process_period_endings pd cur other start pid es).map
      (fun p => p.possession_id) = List.range' pid es.length := by
  intro es
  induction es with
  | nil => intro cur other start pid; rfl
  | cons e rest ih =>
    intro cur other start pid
    unfold process_period_endings
    split <;> simp [List.range'_succ, ih]

theorem run_length (pd : Int) (es : List Ending) (cur other start : Int) (pid : Nat) :
    (process_period_endings pd cur other start pid es).length = es.length := by
  have h := congrArg List.length (run_ids pd es cur other start pid)
  simpa using h

theorem run_period (pd : Int) : ∀ (es : List Ending) (cur other start : Int) (pid : Nat),
    ∀ p ∈ process_period_endings pd cur other start pid es, p.period = pd := by
  intro es
  induction es with
  | nil => intro cur other start pid p hp; exact absurd hp (List.not_mem_nil p)
  | cons e rest ih =>
    intro cur other start pid p hp
    unfold process_period_endings at hp
    split at hp <;>
      rcases List.mem_cons.mp hp with rfl | hr
    · rfl
    · exact ih _ _ _ _ p hr
    · rfl
    · exact ih _ _ _ _ p hr

theorem run_distinct (pd : Int) : ∀ (es : List Ending) (cur other start : Int)
    (pid : Nat), cur ≠ other →
    ∀ p ∈ process_period_endings pd cur other start pid es,
      p.off_team ≠ p.def_team := by
  intro es
  induction es with
  | nil => intro cur other start pid _ p hp; exact absurd hp (List.not_mem_nil p)
  | cons e rest ih =>
    intro cur other start pid hne p hp
    unfold process_period_endings at hp
    split at hp <;> rcases List.mem_cons.mp hp with rfl | hr
    · exact hne
    · exact ih _ _ _ _ (Ne.symm hne) p hr
    · exact hne
    · exact ih _ _ _ _ hne p hr

theorem run_head (pd : Int) (e : Ending) (rest : List Ending)
    (cur other start : Int) (pid : Nat) :
    ∃ h, (process_period_endings pd cur other start pid (e :: rest)).head? = some h ∧
      h.off_team = cur ∧ h.def_team = other ∧ h.start_time_seconds = start ∧
      h.period = pd := by
  unfold process_period_endings
  split <;> exact ⟨_, rfl, rfl, rfl, rfl, rfl⟩

theorem run_head_fields (pd : Int) (es : List Ending) (cur other start : Int)
    (pid : Nat) :
    ∀ y ∈ (process_period_endings pd cur other start pid es).head?,
      y.off_team = cur ∧ y.def_team = other ∧ y.start_time_seconds = start := by
  cases es with
  | nil => intro y hy; simp [process_period_endings] at hy
  | cons e rest =>
    intro y hy
    unfold process_period_endings at hy
    split at hy <;>
    · simp only [List.head?_cons, Option.mem_def] at hy
      rcases Option.some.inj hy with rfl
      exact ⟨rfl, rfl, rfl⟩

theorem run_flip_chain (pd : Int) : ∀ (es : List Ending) (cur other start : Int)
    (pid : Nat),
    List.Chain' flip_rel (process_period_endings pd cur other start pid es) := by
  intro es
  induction es with
  | nil => intro cur other start pid; exact List.chain'_nil
  | cons e rest ih =>
    intro cur other start pid
    unfold process_period_endings
    split
    · rename_i hflip
      rw [List.chain'_cons']
      refine ⟨?_, ih _ _ _ _⟩
      intro y hy
      rcases run_head_fields pd rest other cur e.end_time_seconds (pid + 1) y hy with
        ⟨ho, hd, -⟩
      intro _
      exact ⟨fun _ => ⟨ho, hd⟩, fun hcon => absurd hflip.symm hcon⟩
    · rename_i hflip
      rw [List.chain'_cons']
      refine ⟨?_, ih _ _ _ _⟩
      intro y hy
      rcases run_head_fields pd rest cur other e.end_time_seconds (pid + 1) y hy with
        ⟨ho, hd, -⟩
      intro _
      exact ⟨fun hcon => absurd hcon.symm hflip, fun _ => ⟨ho, hd⟩⟩

theorem run_start_chain (pd : Int) : ∀ (es : List Ending) (cur other start : Int)
    (pid : Nat),
    List.Pairwise (fun a b : Ending => b.end_time_seconds ≤ a.end_time_seconds) es →
    (∀ e ∈ es, e.end_time_seconds ≤ start) →
    List.Chain' (fun a b : Possession => b.start_time_seconds ≤ a.start_time_seconds)
      (process_period_endings pd cur other start pid es) ∧
    (∀ p ∈ process_period_endings pd cur other start pid es,
      p.start_time_seconds ≤ start) := by
  intro es
  induction es with
  | nil =>
    intro cur other start pid _ _
    exact ⟨List.chain'_nil, fun p hp => absurd hp (List.not_mem_nil p)⟩
  | cons e rest ih =>
    intro cur other start pid hpw hbound
    rcases List.pairwise_cons.mp hpw with ⟨hhd, hpw2⟩
    have hestart : e.end_time_seconds ≤ start := hbound e (List.mem_cons_self e rest)
    unfold process_period_endings
    split <;>
    · constructor
      · rw [List.chain'_cons']
        refine ⟨?_, (ih _ _ e.end_time_seconds (pid + 1) hpw2 hhd).1⟩
        intro y hy
        rcases run_head_fields pd rest _ _ e.end_time_seconds (pid + 1) y hy with
          ⟨-, -, hstart⟩
        show y.start_time_seconds ≤ start
        rw [hstart]
        exact hestart
      · intro p hp
        rcases List.mem_cons.mp hp with rfl | hr
        · exact le_refl _
        · exact le_trans
            ((ih _ _ e.end_time_seconds (pid + 1) hpw2 hhd).2 p hr) hestart

theorem nodup_sortedDedupInt (l : List Int) : (sortedDedupInt l).Nodup := by
  unfold sortedDedupInt
  exact ((List.perm_insertionSort _ _).nodup_iff).mpr (List.nodup_dedup l)

theorem sorted_le_sortedDedupInt (l : List Int) :
    List.Sorted (fun a b : Int => a ≤ b) (sortedDedupInt l) :=
  List.sorted_insertionSort _ _

theorem pairwise_lt_sortedDedupInt (l : List Int) :
    List.Pairwise (fun a b : Int => a < b) (sortedDedupInt l) := by
  have h1 := sorted_le_sortedDedupInt l
  have h2 := nodup_sortedDedupInt l
  exact (List.Pairwise.and h1 h2).imp (fun hab => lt_of_le_of_ne hab.1 hab.2)

theorem process_periods_cons {pbp : List PrepEvent} {endings : List Ending}
    {pid : Nat} {p : Int} {rest : List Int} {res : List Possession}
    (h : process_periods pbp endings pid (p :: rest) = some res) :
    ∃ cur other more,
      cur ≠ other ∧
      process_periods pbp endings
        (pid + (List.insertionSort te_le (endings.filter (fun e => e.period = p))).length)
        rest = some more ∧
      res = process_period_endings p cur other
        (((pbp.filter (fun e => e.period = p)).map
          (fun e => e.game_clock_seconds)).foldl max 0)
        pid (List.insertionSort te_le (endings.filter (fun e => e.period = p))) ++ more := by
  unfold process_periods at h
  split at h
  · exact absurd h (by simp)
  rename_i fte hf
  split at h
  · exact absurd h (by simp)
  rename_i cur hc
  split at h
  · exact absurd h (by simp)
  rename_i v0 hv
  split at h
  · exact absurd h (by simp)
  rename_i other ho
  split at h
  · exact absurd h (by simp)
  rename_i more hm
  have hres := (Option.some.inj h).symm
  have hne : cur ≠ other := by
    by_cases hcv : cur = v0
    · rw [if_pos hcv] at ho
      rcases List.head?_eq_some_iff.mp hv with ⟨t, ht⟩
      subst hcv
      intro hco
      subst hco
      rw [ht] at ho
      have hmem : cur ∈ t := by
        have := List.getElem?_eq_some.mp (by simpa using ho)
        rcases this with ⟨hlt, hval⟩
        exact hval ▸ List.getElem_mem hlt
      have hnd := nodup_sortedDedupInt (pbp.filterMap (fun e => e.offTeamId_clean))
      rw [ht] at hnd
      exact (List.nodup_cons.mp hnd).1 hmem
    · rw [if_neg hcv] at ho
      rcases Option.some.inj ho with rfl
      exact hcv
  exact ⟨cur, other, more, hne, hm, hres⟩

theorem head?_mem {α : Type} {l : List α} {x : α} (h : x ∈ l.head?) : x ∈ l := by
  cases l with
  | nil => simp at h
  | cons a t =>
    simp only [List.head?_cons, Option.mem_def] at h
    rcases Option.some.inj h with rfl
    exact List.mem_cons_self a t

theorem process_periods_ids {pbp : List PrepEvent} {endings : List Ending} :
    ∀ (periods : List Int) (pid : Nat) (res : List Possession),
      process_periods pbp endings pid periods = some res →
      res.map (fun q => q.possession_id) = List.range' pid res.length := by
  intro periods
  induction periods with
  | nil =>
    intro pid res h
    rcases Option.some.inj h with rfl
    rfl
  | cons p rest ih =>
    intro pid res h
    rcases process_periods_cons h with ⟨cur, other, more, -, hm, hres⟩
    subst hres
    rw [List.map_append, run_ids, ih _ _ hm, List.length_append, run_length]
    have hr := List.range'_append pid
      ((List.insertionSort te_le (endings.filter (fun e => e.period = p))).length)
      more.length 1
    simp only [Nat.one_mul] at hr
    rw [hr, Nat.add_comm more.length _]

theorem process_periods_mem {pbp : List PrepEvent} {endings : List Ending} :
    ∀ (periods : List Int) (pid : Nat) (res : List Possession),
      process_periods pbp endings pid periods = some res →
      ∀ q ∈ res, q.period ∈ periods ∧ q.off_team ≠ q.def_team := by
  intro periods
  induction periods with
  | nil =>
    intro pid res h q hq
    rcases Option.some.inj h with rfl
    exact absurd hq (List.not_mem_nil q)
  | cons p rest ih =>
    intro pid res h q hq
    rcases process_periods_cons h with ⟨cur, other, more, hne, hm, hres⟩
    subst hres
    rcases List.mem_append.mp hq with hrun | hmore
    · refine ⟨?_, run_distinct _ _ _ _ _ _ hne q hrun⟩
      rw [run_period _ _ _ _ _ _ q hrun]
      exact List.mem_cons_self p rest
    · rcases ih _ _ hm q hmore with ⟨hper, hod⟩
      exact ⟨List.mem_cons_of_mem p hper, hod⟩

theorem process_periods_chains {pbp : List PrepEvent} {endings : List Ending}
    (Hanti : ∀ e1 ∈ endings, ∀ e2 ∈ endings, e1.period = e2.period →
      e1.time_elapsed ≤ e2.time_elapsed → e2.end_time_seconds ≤ e1.end_time_seconds)
    (Hbound : ∀ e ∈ endings, e.end_time_seconds ≤
      ((pbp.filter (fun x => x.period = e.period)).map
        (fun x => x.game_clock_seconds)).foldl max 0) :
    ∀ (periods : List Int) (pid : Nat) (res : List Possession),
      List.Pairwise (fun a b : Int => a < b) periods →
      process_periods pbp endings pid periods = some res →
      List.Chain' flip_rel res ∧ List.Chain' chrono_after res := by
  intro periods
  induction periods with
  | nil =>
    intro pid res _ h
    rcases Option.some.inj h with rfl
    exact ⟨List.chain'_nil, List.chain'_nil⟩
  | cons p rest ih =>
    intro pid res hpw h
    rcases process_periods_cons h with ⟨cur, other, more, -, hm, hres⟩
    subst hres
    rcases List.pairwise_cons.mp hpw with ⟨hplt, hpw2⟩
    have hes_mem : ∀ e ∈ List.insertionSort te_le
        (endings.filter (fun x => x.period = p)), e ∈ endings ∧ e.period = p := by
      intro e he
      have := (List.perm_insertionSort te_le
        (endings.filter (fun x => x.period = p))).mem_iff.mp he
      rcases List.mem_filter.mp this with ⟨h1, h2⟩
      exact ⟨h1, by simpa using h2⟩
    have hpw_te : List.Pairwise te_le (List.insertionSort te_le
        (endings.filter (fun x => x.period = p))) :=
      List.sorted_insertionSort te_le _
    have hpw_desc : List.Pairwise (fun a b : Ending =>
        b.end_time_seconds ≤ a.end_time_seconds)
        (List.insertionSort te_le (endings.filter (fun x => x.period = p))) := by
      refine List.Pairwise.imp_of_mem ?_ hpw_te
      intro a b ha hb hte
      rcases hes_mem a ha with ⟨ha1, ha2⟩
      rcases hes_mem b hb with ⟨hb1, hb2⟩
      exact Hanti a ha1 b hb1 (ha2.trans hb2.symm) hte
    have hbound_es : ∀ e ∈ List.insertionSort te_le
        (endings.filter (fun x => x.period = p)), e.end_time_seconds ≤
        (((pbp.filter (fun x => x.period = p)).map
          (fun x => x.game_clock_seconds)).foldl max 0) := by
      intro e he
      rcases hes_mem e he with ⟨h1, h2⟩
      have := Hbound e h1
      rw [h2] at this
      exact this
    have hstart := run_start_chain p _ cur other _ pid hpw_desc hbound_es
    have hflip := run_flip_chain p (List.insertionSort te_le
      (endings.filter (fun x => x.period = p))) cur other
      (((pbp.filter (fun x => x.period = p)).map
        (fun x => x.game_clock_seconds)).foldl max 0) pid
    have hchrono_run : List.Chain' chrono_after
        (process_period_endings p cur other
          (((pbp.filter (fun x => x.period = p)).map
            (fun x => x.game_clock_seconds)).foldl max 0)
          pid (List.insertionSort te_le (endings.filter (fun x => x.period = p)))) := by
      haveI : IsTrans Possession (fun a b : Possession =>
          b.start_time_seconds ≤ a.start_time_seconds) :=
        ⟨fun _ _ _ h1 h2 => le_trans h2 h1⟩
      have hpair := List.chain'_iff_pairwise.mp hstart.1
      have hpair2 : List.Pairwise chrono_after
          (process_period_endings p cur other
            (((pbp.filter (fun x => x.period = p)).map
              (fun x => x.game_clock_seconds)).foldl max 0)
            pid (List.insertionSort te_le (endings.filter (fun x => x.period = p)))) := by
        refine List.Pairwise.imp_of_mem ?_ hpair
        intro a b ha hb hs
        right
        exact ⟨by rw [run_period _ _ _ _ _ _ a ha, run_period _ _ _ _ _ _ b hb], hs⟩
      exact List.chain'_iff_pairwise.mpr hpair2
    rcases ih _ _ hpw2 hm with ⟨hflip_more, hchrono_more⟩
    have hjunction : ∀ x ∈ (process_period_endings p cur other
        (((pbp.filter (fun x => x.period = p)).map
          (fun x => x.game_clock_seconds)).foldl max 0)
        pid (List.insertionSort te_le
          (endings.filter (fun x => x.period = p)))).getLast?,
        ∀ y ∈ more.head?, x.period = p ∧ p < y.period := by
      intro x hx y hy
      have hxm := LineupPossessions.getLast?_mem hx
      have hym := head?_mem hy
      have hxp := run_period _ _ _ _ _ _ x hxm
      have hyp := (process_periods_mem _ _ _ hm y hym).1
      exact ⟨hxp, hplt _ hyp⟩
    constructor
    · rw [List.chain'_append]
      refine ⟨hflip, hflip_more, ?_⟩
      intro x hx y hy
      rcases hjunction x hx y hy with ⟨hxp, hlt⟩
      intro hcon
      rw [hxp] at hcon
      omega
    · rw [List.chain'_append]
      refine ⟨hchrono_run, hchrono_more, ?_⟩
      intro x hx y hy
      rcases hjunction x hx y hy with ⟨hxp, hlt⟩
      left
      rw [hxp]
      exact hlt

theorem extract_destruct {pbp : List RawEvent} {ps : List Possession}
    (h : extract_possessions pbp = some ps) :
    ∃ prep tl, prepare_pbp_data pbp = some prep ∧
      build_possession_timeline prep (identify_possession_endings prep) = some tl ∧
      ps = calculate_possession_metrics tl prep := by
  unfold extract_possessions at h
  split at h
  · exact absurd h (by simp)
  rename_i prep hprep
  split at h
  · exact absurd h (by simp)
  rename_i tl htl
  exact ⟨prep, tl, hprep, htl, (Option.some.inj h).symm⟩

theorem ending_te_clock {pbp : List RawEvent} {prep : List PrepEvent}
    (hp : prepare_pbp_data pbp = some prep) :
    ∀ e ∈ identify_possession_endings prep,
      e.time_elapsed = maxClockOfPeriod pbp e.period - e.end_time_seconds := by
  intro e he
  rcases endings_shape he with ⟨play, hplay, hper, hclock, hte⟩
  rcases prepare_mem hp play hplay with ⟨r, -, hrper, hrclock, hrte⟩
  rw [hte, hrte, ← hrper, ← hrclock, ← hper, ← hclock]

theorem endings_anti {pbp : List RawEvent} {prep : List PrepEvent}
    (hp : prepare_pbp_data pbp = some prep) :
    ∀ e1 ∈ identify_possession_endings prep, ∀ e2 ∈ identify_possession_endings prep,
      e1.period = e2.period → e1.time_elapsed ≤ e2.time_elapsed →
      e2.end_time_seconds ≤ e1.end_time_seconds := by
  intro e1 h1 e2 h2 hpq hte
  have g1 := ending_te_clock hp e1 h1
  have g2 := ending_te_clock hp e2 h2
  rw [hpq] at g1
  omega

theorem endings_bound {prep : List PrepEvent} :
    ∀ e ∈ identify_possession_endings prep, e.end_time_seconds ≤
      ((prep.filter (fun x => x.period = e.period)).map
        (fun x => x.game_clock_seconds)).foldl max 0 := by
  intro e he
  rcases endings_shape he with ⟨play, hplay, hper, hclock, -⟩
  have hpm : play ∈ prep.filter (fun x => x.period = e.period) :=
    List.mem_filter.mpr ⟨hplay, by simp [hper.symm]⟩
  rw [hclock]
  exact le_foldl_max _ 0 _ (List.mem_map_of_mem _ hpm)

theorem timeline_facts {pbp : List RawEvent} {prep : List PrepEvent}
    {tl : List Possession} (hp : prepare_pbp_data pbp = some prep)
    (ht : build_possession_timeline prep (identify_possession_endings prep) = some tl) :
    (∀ q ∈ tl, q.off_team ≠ q.def_team) ∧
    List.Chain' flip_rel tl ∧ List.Chain' chrono_after tl ∧
    tl.map (fun q => q.possession_id) = List.range' 1 tl.length := by
  unfold build_possession_timeline at ht
  split at ht
  · rcases Option.some.inj ht with rfl
    exact ⟨fun q hq => absurd hq (List.not_mem_nil q), List.chain'_nil,
      List.chain'_nil, rfl⟩
  · have hpw := pairwise_lt_sortedDedupInt
      ((identify_possession_endings prep).map (fun e => e.period))
    rcases process_periods_chains (endings_anti hp) endings_bound _ _ _ hpw ht with
      ⟨hc1, hc2⟩
    exact ⟨fun q hq => (process_periods_mem _ _ _ ht q hq).2, hc1, hc2,
      process_periods_ids _ _ _ ht⟩

theorem metrics_map_id (tl : List Possession) (prep : List PrepEvent) :
    (calculate_possession_metrics tl prep).map (fun q => q.possession_id) =
      tl.map (fun q => q.possession_id) := by
  unfold calculate_possession_metrics
  rw [List.map_map]
  exact List.map_congr_left (fun x _ => rfl)

theorem metrics_length (tl : List Possession) (prep : List PrepEvent) :
    (calculate_possession_metrics tl prep).length = tl.length := by
  unfold calculate_possession_metrics
  exact List.length_map _ _

/-- C7: every possession produced by `extract_possessions` has offensive team
distinct from defensive team, and between consecutive possessions of the same
period the offense/defense assignment is swapped exactly after a `turnover` or
`defensive_rebound` ending and kept unchanged after every other end type. -/

theorem possessions_teams_and_flips (pbp : List RawEvent) (ps : List Possession)
    (h : extract_possessions pbp = some ps) :
    (∀ q ∈ ps, q.off_team ≠ q.def_team) ∧ List.Chain' flip_rel ps := by
  rcases extract_destruct h with ⟨prep, tl, hp, ht, hps⟩
  rcases timeline_facts hp ht with ⟨hdist, hflip, -, -⟩
  subst hps
  constructor
  · intro q hq
    unfold calculate_possession_metrics at hq
    rcases List.mem_map.mp hq with ⟨x, hx, rfl⟩
    exact hdist x hx
  · unfold calculate_possession_metrics
    rw [List.chain'_map]
    exact List.Chain'.imp (fun a b hab => hab) hflip

/-- C8: the possession ids of `extract_possessions` are exactly 1, 2, ..., N in
order, and the list is chronologically sorted: periods non-decreasing, and
within a period the start clocks non-increasing (start times non-decreasing). -/

theorem possessions_ids_dense_chronological (pbp : List RawEvent)
    (ps : List Possession) (h : extract_possessions pbp = some ps) :
    ps.map (fun q => q.possession_id) = List.range' 1 ps.length ∧
    List.Pairwise chrono_after ps := by
  rcases extract_destruct h with ⟨prep, tl, hp, ht, hps⟩
  rcases timeline_facts hp ht with ⟨-, -, hchrono, hids⟩
  subst hps
  constructor
  · rw [metrics_map_id, metrics_length]
    exact hids
  · unfold calculate_possession_metrics
    rw [List.pairwise_map]
    have hpair := List.chain'_iff_pairwise.mp hchrono
    exact hpair.imp (fun hab => hab)

theorem mem_of_getElem?_some {α : Type} {l : List α} {n : Nat} {x : α}
    (h : l[n]? = some x) : x ∈ l := by
  rcases List.getElem?_eq_some.mp h with ⟨hlt, hval⟩
  exact hval ▸ List.getElem_mem hlt

/-- C3 (amended): a made shot that is followed within the 5-second look-ahead
window by a free throw of the same shooter produces no possession ending
(closure is deferred), PROVIDED at least two further rows exist in the stream
(the source guard `idx < len(pbp) - 2` empties the window otherwise). -/

theorem and_one_defers_ending (pbp : List PrepEvent) (i j : Nat)
    (play ft : PrepEvent)
    (hplay : pbp[i]? = some play) (hmsg : play.msgType = 1)
    (hj : j = i + 1 ∨ j = i + 2) (hft : pbp[j]? = some ft)
    (hftmsg : ft.msgType = 3)
    (hpid : pid_eq ft.playerId1 play.playerId1 = true)
    (hclose : (ft.time_elapsed - play.time_elapsed).natAbs < 5)
    (hroom : i + 2 < pbp.length) :
    (∀ e ∈ identify_possession_endings pbp, e.pbp_idx ≠ i) ∧
    (is_last_free_throw ft pbp j = true →
      ∃ e ∈ identify_possession_endings pbp,
        e.pbp_idx = j ∧ e.end_type = "free_throw") := by
  constructor
  case right =>
    intro hlast
    refine ⟨create_possession_ending ft "free_throw" j, ?_, rfl, rfl⟩
    have henum : (j, ft) ∈ pbp.enum := by
      apply mem_of_getElem?_some (n := j)
      rw [List.getElem?_enum, hft]
      rfl
    refine List.mem_filterMap.mpr ⟨(j, ft), henum, ?_⟩
    show ending_for pbp j ft = _
    unfold ending_for
    rw [if_neg (by omega), if_pos hftmsg, if_pos hlast]
  intro e he hidx
  rcases ending_idx_unique he with ⟨play2, hget2, hef⟩
  rw [hidx] at hget2 hef
  have hpe : play2 = play := by
    rw [hget2] at hplay
    exact Option.some.inj hplay
  subst hpe
  have hand : is_and_one_freethrow play2 pbp i = true := by
    unfold is_and_one_freethrow
    have hlt : i < pbp.length - 2 := by omega
    rw [if_pos hlt, List.any_eq_true]
    refine ⟨ft, ?_, ?_⟩
    · have hdrop : (pbp.drop (i + 1))[j - (i + 1)]? = some ft := by
        rw [List.getElem?_drop]
        have harith : i + 1 + (j - (i + 1)) = j := by omega
        rw [harith, hft]
      have htake : ((pbp.drop (i + 1)).take 2)[j - (i + 1)]? = some ft := by
        rw [List.getElem?_take, if_pos (by omega : j - (i + 1) < 2), hdrop]
      exact mem_of_getElem?_some htake
    · simp [hftmsg, hpid, hclose]
  unfold ending_for at hef
  rw [if_pos hmsg, hand] at hef
  simp at hef

/-- C3 witness: in the four-event stream the made shot (prepared index 1) has
two following rows, the same-shooter free throw is one second later, and no
possession ending is recorded at the made shot. -/

theorem and_one_defers_ending_witness :
    (((prepare_pbp_data wit_c3_raw).getD [])[1]?).map (fun e => e.msgType) = some 1 ∧
    (∀ e ∈ identify_possession_endings ((prepare_pbp_data wit_c3_raw).getD []),
      e.pbp_idx ≠ 1) ∧
    (∃ e ∈ identify_possession_endings ((prepare_pbp_data wit_c3_raw).getD []),
      e.pbp_idx = 2 ∧ e.end_type = "free_throw") := by
  have h := and_one_defers_ending ((prepare_pbp_data wit_c3_raw).getD []) 1 2
    ((((prepare_pbp_data wit_c3_raw).getD [])[1]?).getD dummy_prep)
    ((((prepare_pbp_data wit_c3_raw).getD [])[2]?).getD dummy_prep)
    (by decide) (by decide) (Or.inl rfl) (by decide) (by decide) (by decide)
    (by decide) (by decide)
  exact ⟨by decide, h.1, h.2 (by decide)⟩

/-- C3 counterexample: in the three-event stream the made shot is the
second-to-last event, is followed within the window by a same-shooter free
throw, and yet the possession closes as `made_shot` at the made shot, because
the guard `idx < len(pbp) - 2` empties the look-ahead window there. -/

theorem and_one_end_of_stream_cex :
    (extract_possessions cex3_raw).isSome = true ∧
    (∃ p ∈ (extract_possessions cex3_raw).getD [],
      p.end_type = "made_shot" ∧ p.pbp_end_idx = 1) ∧
    ((((prepare_pbp_data cex3_raw).getD [])[1]?).map
      (fun e => (e.msgType, e.playerId1, e.time_elapsed)) = some (1, some 10, 1)) ∧
    ((((prepare_pbp_data cex3_raw).getD [])[2]?).map
      (fun e => (e.msgType, e.playerId1, e.time_elapsed)) = some (3, some 10, 2)) ∧
    ((prepare_pbp_data cex3_raw).getD []).length = 3 := by
  decide

/-- C7 witness: on the concrete stream every possession has distinct teams,
a turnover flips the sides and a made shot keeps them. -/

theorem possessions_teams_and_flips_witness :
    extract_possessions wit4_raw = some ((extract_possessions wit4_raw).getD []) ∧
    (∀ q ∈ (extract_possessions wit4_raw).getD [], q.off_team ≠ q.def_team) ∧
    ((extract_possessions wit4_raw).getD []).map (fun q => (q.off_team, q.def_team,
      q.end_type)) = [(10, 20, "turnover"), (20, 10, "made_shot"),
      (20, 10, "period_end")] := by
  refine ⟨by decide, ?_, by decide⟩
  exact (possessions_teams_and_flips wit4_raw _ (by decide)).1

/-- C8 witness: on the concrete stream the possession ids are 1, 2, 3 in
chronological order. -/

theorem possessions_ids_witness :
    extract_possessions wit4_raw = some ((extract_possessions wit4_raw).getD []) ∧
    ((extract_possessions wit4_raw).getD []).map (fun q => q.possession_id) =
      List.range' 1 ((extract_possessions wit4_raw).getD []).length := by
  refine ⟨by decide, ?_⟩
  exact (possessions_ids_dense_chronological wit4_raw _ (by decide)).1

end Possessions

namespace LineupStates

open Pbp

theorem extract_starting_go_error (box : List Pbp.BoxRow) :
    ∀ (teams : List String), (∃ t ∈ teams, count_starters box t ≠ 5) →
      ∃ msg, extract_starting_go box teams = Except.error msg := by
  intro teams
  induction teams with
  | nil =>
    intro h
    rcases h with ⟨t, ht, -⟩
    exact absurd ht (List.not_mem_nil t)
  | cons team rest ih =>
    intro h
    unfold extract_starting_go
    split
    · exact ⟨_, rfl⟩
    split
    · exact ⟨_, rfl⟩
    rename_i r0 hh hlen
    have hcount : count_starters box team = 5 := by
      unfold count_starters
      rw [List.length_map] at hlen
      omega
    rcases h with ⟨t, ht, hbad⟩
    rcases List.mem_cons.mp ht with rfl | hrest
    · exact absurd hcount hbad
    · rcases ih ⟨t, hrest, hbad⟩ with ⟨msg, hmsg⟩
      refine ⟨msg, ?_⟩
      rw [hmsg]
      rfl

/-- C4 (amended): the lineups pipeline rejects a malformed starting unit —
whenever some team appearing among the designated starters does not have
exactly five of them, `extract_lineup_states` raises (returns an error) rather
than producing a timeline.  (The players pipeline's hybrid builder performs no
such validation; see the counterexample.) -/

theorem lineup_states_rejects_bad_starters (box : List Pbp.BoxRow)
    (pbp : List Pbp.Row) (team : String) (hmem : team ∈ starter_teams box)
    (hbad : count_starters box team ≠ 5) :
    ∃ msg, extract_lineup_states box pbp = Except.error msg := by
  rcases extract_starting_go_error box (starter_teams box) ⟨team, hmem, hbad⟩ with
    ⟨msg, hmsg⟩
  refine ⟨msg, ?_⟩
  unfold extract_lineup_states extract_starting_lineups
  rw [hmsg]

/-- C4 witness: team A of the malformed box score has four starters, and the
lineups pipeline rejects the game. -/

theorem lineup_states_rejects_bad_starters_witness :
    ("A" ∈ starter_teams cex4_box ∧ count_starters cex4_box "A" ≠ 5) ∧
    ∃ msg, extract_lineup_states cex4_box cex4_pbp = Except.error msg := by
  refine ⟨⟨by decide, by decide⟩, ?_⟩
  exact lineup_states_rejects_bad_starters cex4_box cex4_pbp "A"
    (by decide) (by decide)

/-- C4 counterexample: on the same malformed box score, with a play-by-play
containing an activity event (so the hybrid tracker's empty-activity-frame
`KeyError` does not fire), the players pipeline's hybrid court-time builder
performs no five-starter validation: it silently returns a timeline of nine
intervals (built from the four-player unit) while the lineups pipeline
raises. -/

theorem hybrid_accepts_bad_starters_cex :
    count_starters cex4_box "A" = 4 ∧
    extract_lineup_states cex4_box cex4_pbp =
      Except.error "team A does not have exactly 5 starters" ∧
    (CourtTime.track_lineup_states cex4_box cex4_pbp).isSome = true ∧
    ((CourtTime.track_lineup_states cex4_box cex4_pbp).getD []).length = 9 := by
  refine ⟨by decide, rfl, by decide, by decide⟩

/-- C9: a substitution event that fails validation — its outgoing player is
not in the team's current on-court set, or its incoming player already is —
leaves the current lineups unchanged, emits no lineup row and raises no error:
processing continues exactly as if the event were absent. -/

theorem substitution_validation_skip (cur : List TeamState) (sub : SubRow)
    (rest : List SubRow) (ts : TeamState)
    (hfind : cur.find? (fun t => t.team == sub.team) = some ts)
    (hinvalid : sub.player_out ∉ ts.players ∨ sub.player_in ∈ ts.players) :
    process_subs cur (sub :: rest) = process_subs cur rest := by
  conv_lhs => rw [process_subs]
  simp only [hfind]
  rw [if_pos hinvalid]

/-- C9 witness: a substitution whose outgoing player 9 is not on court is
skipped, leaving the state unchanged and emitting no row. -/

theorem substitution_validation_skip_witness :
    (([(⟨"A", 1, [1, 2, 3, 4, 5]⟩ : TeamState)].find?
      (fun t => t.team == "A") = some (⟨"A", 1, [1, 2, 3, 4, 5]⟩ : TeamState)) ∧
     ((9 : Int) ∉ [1, 2, 3, 4, 5] ∨ (7 : Int) ∈ [1, 2, 3, 4, 5])) ∧
    process_subs [(⟨"A", 1, [1, 2, 3, 4, 5]⟩ : TeamState)]
        [(⟨1, 600, "A", 7, 9⟩ : SubRow)] =
      some ([(⟨"A", 1, [1, 2, 3, 4, 5]⟩ : TeamState)], []) := by
  refine ⟨⟨by decide, Or.inl (by decide)⟩, ?_⟩
  rw [substitution_validation_skip _ (⟨1, 600, "A", 7, 9⟩ : SubRow) []
    (⟨"A", 1, [1, 2, 3, 4, 5]⟩ : TeamState) (by decide) (Or.inl (by decide))]
  rfl

end LineupStates

/-- C10 (amended): the two lineup trackers interpret substitution events
OPPOSITELY.  For any substitution row with both player ids present,
`_parse_substitutions` of the lineups pipeline reads `playerId1` as the player
coming in and `playerId2` as the player going out, while the hybrid builder of
the players pipeline emits an OUT status change for `playerId1` and an IN
status change for `playerId2`. -/

theorem substitution_direction_opposite (r : Pbp.Row) (box : List Pbp.BoxRow)
    (p1 p2 : Int) (h1 : r.playerId1 = some p1) (h2 : r.playerId2 = some p2)
    (hmsg : r.msgType = 8) (tid1 tid2 : Int)
    (ht1 : CourtTime.get_team_mapping box p1 = some tid1) (hn1 : tid1 ≠ 0)
    (ht2 : CourtTime.get_team_mapping box p2 = some tid2) (hn2 : tid2 ≠ 0) :
    (LineupStates.parse_substitutions [r]).map
      (fun s => (s.player_in, s.player_out)) = [(p1, p2)] ∧
    ∃ cs, CourtTime.sub_status_changes box [r] = some cs ∧
      cs.map (fun c => (c.playerId, c.action)) = [(p1, "OUT"), (p2, "IN")] := by
  constructor
  · unfold LineupStates.parse_substitutions
    simp [hmsg, h1, h2, List.insertionSort]
  · unfold CourtTime.sub_status_changes
    simp only [h1, h2]
    unfold CourtTime.sub_status_changes
    simp only [ht1, ht2, if_pos hn1, if_pos hn2]
    exact ⟨_, rfl, by simp⟩

/-- C10 witness: on the concrete substitution (playerId1 = 6, playerId2 = 5)
the lineups parser records 6 as entering and 5 as leaving, while the hybrid
builder records 6 as OUT and 5 as IN. -/

theorem substitution_direction_opposite_witness :
    ((cex10_pbp.get? 2).map (fun r => (r.msgType, r.playerId1, r.playerId2)) =
      some (8, some 6, some 5)) ∧
    (LineupStates.parse_substitutions [⟨"g", 1, 600, 2000, 8, "A", some 6, some 5, none⟩]).map
      (fun s => (s.player_in, s.player_out)) = [(6, 5)] ∧
    ∃ cs, CourtTime.sub_status_changes cex10_box
        [⟨"g", 1, 600, 2000, 8, "A", some 6, some 5, none⟩] = some cs ∧
      cs.map (fun c => (c.playerId, c.action)) = [(6, "OUT"), (5, "IN")] := by
  have h := substitution_direction_opposite
    (⟨"g", 1, 600, 2000, 8, "A", some 6, some 5, none⟩ : Pbp.Row) cex10_box 6 5
    rfl rfl rfl 1 1 (by decide) (by decide) (by decide) (by decide)
  exact ⟨by decide, h.1, h.2⟩

/-- C10 counterexample: after the valid substitution (playerId1 = 6,
playerId2 = 5), on a play-by-play that also contains an activity event (so
the hybrid tracker's empty-activity-frame `KeyError` does not fire), the
lineups pipeline puts player 6 on court and removes player 5, while the
players pipeline's intervals keep player 5 on court and leave player 6 off —
the two builders disagree on the post-substitution on-court set. -/

theorem substitution_direction_cex :
    ((LineupStates.extract_lineup_states cex10_box cex10_pbp).toOption.isSome
      = true) ∧
    (∃ row ∈ (LineupStates.extract_lineup_states cex10_box cex10_pbp).toOption.getD [],
      row.team = "A" ∧ row.game_clock_seconds = 600 ∧
      6 ∈ row.players ∧ 5 ∉ row.players) ∧
    (CourtTime.track_lineup_states cex10_box cex10_pbp).isSome = true ∧
    5 ∈ CourtTime.on_court_at
      ((CourtTime.track_lineup_states cex10_box cex10_pbp).getD []) 1 1 2500 ∧
    6 ∉ CourtTime.on_court_at
      ((CourtTime.track_lineup_states cex10_box cex10_pbp).getD []) 1 1 2500 := by
  decide

namespace LineupRatings

theorem find?_stats_mem {K : Type} [DecidableEq K] :
    ∀ (keys : List K) (mk : K → SideStat) (key_of : SideStat → K),
      (∀ k, key_of (mk k) = k) → ∀ (k : K), k ∈ keys →
      (keys.map mk).find? (fun s => key_of s = k) = some (mk k) := by
  intro keys
  induction keys with
  | nil => intro mk key_of hkey k hk; exact absurd hk (List.not_mem_nil k)
  | cons a rest ih =>
    intro mk key_of hkey k hk
    rw [List.map_cons, List.find?_cons]
    by_cases hak : a = k
    · subst hak
      simp [hkey]
    · have hfalse : (decide (key_of (mk a) = k)) = false := by
        simp [hkey, hak]
      rw [hfalse]
      refine ih mk key_of hkey k ?_
      rcases List.mem_cons.mp hk with h | h
      · exact absurd h.symm hak
      · exact h

theorem find?_stats_not_mem {K : Type} [DecidableEq K] :
    ∀ (keys : List K) (mk : K → SideStat) (key_of : SideStat → K),
      (∀ k, key_of (mk k) = k) → ∀ (k : K), k ∉ keys →
      (keys.map mk).find? (fun s => key_of s = k) = none := by
  intro keys
  induction keys with
  | nil => intro mk key_of hkey k hk; rfl
  | cons a rest ih =>
    intro mk key_of hkey k hk
    rw [List.map_cons, List.find?_cons]
    have hak : a ≠ k := fun h => hk (h ▸ List.mem_cons_self a rest)
    have hfalse : (decide (key_of (mk a) = k)) = false := by
      simp [hkey, hak]
    rw [hfalse]
    exact ih mk key_of hkey k (fun h => hk (List.mem_cons_of_mem a h))

theorem off_stats_key_list (df : List LPRow) :
    (calculate_offensive_stats df).map (fun s => (s.team, s.lineup_players)) =
      firstOccDedup (df.map off_key) := by
  unfold calculate_offensive_stats
  rw [List.map_map]
  exact (List.map_congr_left (fun k _ => rfl)).trans (List.map_id _)

theorem def_stats_key_list (df : List LPRow) :
    (calculate_defensive_stats df).map (fun s => (s.team, s.lineup_players)) =
      firstOccDedup (df.map def_key) := by
  unfold calculate_defensive_stats
  rw [List.map_map]
  exact (List.map_congr_left (fun k _ => rfl)).trans (List.map_id _)

theorem off_stats_find_mem (df : List LPRow) (k : String × List Int)
    (hk : k ∈ firstOccDedup (df.map off_key)) :
    (calculate_offensive_stats df).find? (fun s => (s.team, s.lineup_players) = k) =
      some ⟨k.1, k.2, (df.filter (fun r => off_key r = k)).length,
        ((df.filter (fun r => off_key r = k)).map (fun r => r.points_scored)).sum⟩ := by
  unfold calculate_offensive_stats
  exact find?_stats_mem (firstOccDedup (df.map off_key))
    (fun k => (⟨k.1, k.2, (df.filter (fun r => off_key r = k)).length,
      ((df.filter (fun r => off_key r = k)).map
        (fun r => r.points_scored)).sum⟩ : SideStat))
    (fun s => (s.team, s.lineup_players)) (fun _ => rfl) k hk

theorem off_stats_find_not_mem (df : List LPRow) (k : String × List Int)
    (hk : k ∉ firstOccDedup (df.map off_key)) :
    (calculate_offensive_stats df).find? (fun s => (s.team, s.lineup_players) = k) =
      none := by
  unfold calculate_offensive_stats
  exact find?_stats_not_mem (firstOccDedup (df.map off_key))
    (fun k => (⟨k.1, k.2, (df.filter (fun r => off_key r = k)).length,
      ((df.filter (fun r => off_key r = k)).map
        (fun r => r.points_scored)).sum⟩ : SideStat))
    (fun s => (s.team, s.lineup_players)) (fun _ => rfl) k hk

theorem def_stats_find_mem (df : List LPRow) (k : String × List Int)
    (hk : k ∈ firstOccDedup (df.map def_key)) :
    (calculate_defensive_stats df).find? (fun s => (s.team, s.lineup_players) = k) =
      some ⟨k.1, k.2, (df.filter (fun r => def_key r = k)).length,
        ((df.filter (fun r => def_key r = k)).map (fun r => r.points_scored)).sum⟩ := by
  unfold calculate_defensive_stats
  exact find?_stats_mem (firstOccDedup (df.map def_key))
    (fun k => (⟨k.1, k.2, (df.filter (fun r => def_key r = k)).length,
      ((df.filter (fun r => def_key r = k)).map
        (fun r => r.points_scored)).sum⟩ : SideStat))
    (fun s => (s.team, s.lineup_players)) (fun _ => rfl) k hk

theorem def_stats_find_not_mem (df : List LPRow) (k : String × List Int)
    (hk : k ∉ firstOccDedup (df.map def_key)) :
    (calculate_defensive_stats df).find? (fun s => (s.team, s.lineup_players) = k) =
      none := by
  unfold calculate_defensive_stats
  exact find?_stats_not_mem (firstOccDedup (df.map def_key))
    (fun k => (⟨k.1, k.2, (df.filter (fun r => def_key r = k)).length,
      ((df.filter (fun r => def_key r = k)).map
        (fun r => r.points_scored)).sum⟩ : SideStat))
    (fun s => (s.team, s.lineup_players)) (fun _ => rfl) k hk

theorem combine_key_list (off_stats def_stats : List SideStat) :
    (combine_offensive_defensive_stats off_stats def_stats).map
        (fun c => (c.team, c.lineup_players)) =
      (off_stats.map (fun s => (s.team, s.lineup_players))) ++
        ((def_stats.map (fun s => (s.team, s.lineup_players))).filter
          (fun k => k ∉ off_stats.map (fun s => (s.team, s.lineup_players)))) := by
  unfold combine_offensive_defensive_stats
  rw [List.map_map]
  exact (List.map_congr_left (fun k _ => rfl)).trans (List.map_id _)

theorem combine_row_shape (off_stats def_stats : List SideStat)
    (c : CombinedStat)
    (hc : c ∈ combine_offensive_defensive_stats off_stats def_stats) :
    c.off_poss = ((off_stats.find? (fun s => (s.team, s.lineup_players) =
        (c.team, c.lineup_players))).map (fun s => s.poss)).getD 0 ∧
    c.off_points = ((off_stats.find? (fun s => (s.team, s.lineup_players) =
        (c.team, c.lineup_players))).map (fun s => s.points)).getD 0 ∧
    c.def_poss = ((def_stats.find? (fun s => (s.team, s.lineup_players) =
        (c.team, c.lineup_players))).map (fun s => s.poss)).getD 0 ∧
    c.def_points_allowed = ((def_stats.find? (fun s => (s.team, s.lineup_players) =
        (c.team, c.lineup_players))).map (fun s => s.points)).getD 0 := by
  unfold combine_offensive_defensive_stats at hc
  rcases List.mem_map.mp hc with ⟨k, -, rfl⟩
  exact ⟨rfl, rfl, rfl, rfl⟩

theorem final_ratings_mem {C : List CombinedStat} {row : RatingRow}
    (h : row ∈ calculate_final_ratings C) :
    row.toCombinedStat ∈ C ∧
    row.off_rating = round1 (raw_off_rating row.toCombinedStat) ∧
    row.def_rating = round1 (raw_def_rating row.toCombinedStat) ∧
    row.net_rating = round1 (raw_off_rating row.toCombinedStat -
      raw_def_rating row.toCombinedStat) := by
  unfold calculate_final_ratings at h
  rcases List.mem_map.mp h with ⟨c, hc, rfl⟩
  exact ⟨hc, rfl, rfl, rfl⟩

theorem final_key_list (C : List CombinedStat) :
    (calculate_final_ratings C).map (fun r : RatingRow => (r.team, r.lineup_players)) =
      C.map (fun c => (c.team, c.lineup_players)) := by
  unfold calculate_final_ratings
  rw [List.map_map]
  rfl

theorem ratings_key_perm (df : List LPRow) (h : ¬df.isEmpty = true) :
    ((calculate_lineup_ratings df).map (fun r => (r.team, r.lineup_players))).Perm
      (firstOccDedup (df.map off_key) ++
        (firstOccDedup (df.map def_key)).filter
          (fun k => k ∉ firstOccDedup (df.map off_key))) := by
  unfold calculate_lineup_ratings
  rw [if_neg h]
  unfold clean_final_output
  have hperm := (List.perm_insertionSort final_sort
    (calculate_final_ratings (combine_offensive_defensive_stats
      (calculate_offensive_stats df) (calculate_defensive_stats df)))).map
    (fun r : RatingRow => (r.team, r.lineup_players))
  refine hperm.trans (List.Perm.of_eq ?_)
  rw [final_key_list, combine_key_list, off_stats_key_list, def_stats_key_list]

/-- C5: every lineup observed on the offensive or defensive side appears
exactly once in the rating output; each row's possession counts and point sums
are the exact aggregates of the input on both sides (zero when the lineup
never appears on that side); and the ratings are the rounded per-100 formulas,
with the net rating computed from the unrounded ratings before rounding. -/

theorem lineup_ratings_spec (df : List LPRow) :
    ((calculate_lineup_ratings df).map (fun r => (r.team, r.lineup_players))).Nodup ∧
    (∀ k : String × List Int,
      k ∈ (calculate_lineup_ratings df).map (fun r => (r.team, r.lineup_players)) ↔
      ((∃ r ∈ df, off_key r = k) ∨ (∃ r ∈ df, def_key r = k))) ∧
    (∀ row ∈ calculate_lineup_ratings df,
      row.off_poss = (df.filter (fun r =>
        off_key r = (row.team, row.lineup_players))).length ∧
      row.off_points = ((df.filter (fun r =>
        off_key r = (row.team, row.lineup_players))).map
          (fun r => r.points_scored)).sum ∧
      row.def_poss = (df.filter (fun r =>
        def_key r = (row.team, row.lineup_players))).length ∧
      row.def_points_allowed = ((df.filter (fun r =>
        def_key r = (row.team, row.lineup_players))).map
          (fun r => r.points_scored)).sum ∧
      row.off_rating = round1 (raw_off_rating row.toCombinedStat) ∧
      row.def_rating = round1 (raw_def_rating row.toCombinedStat) ∧
      row.net_rating = round1 (raw_off_rating row.toCombinedStat -
        raw_def_rating row.toCombinedStat)) := by
  by_cases hempty : df.isEmpty = true
  · have hdf : df = [] := List.isEmpty_iff.mp hempty
    subst hdf
    refine ⟨?_, ?_, ?_⟩
    · simp [calculate_lineup_ratings]
    · intro k
      simp [calculate_lineup_ratings]
    · intro row hrow
      simp [calculate_lineup_ratings] at hrow
  · have hkeyperm := ratings_key_perm df hempty
    refine ⟨?_, ?_, ?_⟩
    · rw [hkeyperm.nodup_iff]
      rw [List.nodup_append]
      refine ⟨nodup_firstOccDedup _, (nodup_firstOccDedup _).filter _, ?_⟩
      intro k hk1 hk2
      rcases List.mem_filter.mp hk2 with ⟨-, hnot⟩
      exact absurd hk1 (by simpa using hnot)
    · intro k
      rw [hkeyperm.mem_iff]
      constructor
      · intro hk
        rcases List.mem_append.mp hk with h1 | h2
        · left
          rcases List.mem_map.mp (mem_firstOccDedup.mp h1) with ⟨r, hr, hkey⟩
          exact ⟨r, hr, hkey⟩
        · right
          rcases List.mem_filter.mp h2 with ⟨h3, -⟩
          rcases List.mem_map.mp (mem_firstOccDedup.mp h3) with ⟨r, hr, hkey⟩
          exact ⟨r, hr, hkey⟩
      · intro hk
        rcases hk with ⟨r, hr, hkey⟩ | ⟨r, hr, hkey⟩
        · exact List.mem_append_left _
            (mem_firstOccDedup.mpr (hkey ▸ List.mem_map_of_mem _ hr))
        · by_cases hoff : k ∈ firstOccDedup (df.map off_key)
          · exact List.mem_append_left _ hoff
          · refine List.mem_append_right _ (List.mem_filter.mpr ?_)
            exact ⟨mem_firstOccDedup.mpr (hkey ▸ List.mem_map_of_mem _ hr),
              by simpa using hoff⟩
    · intro row hrow
      unfold calculate_lineup_ratings at hrow
      rw [if_neg hempty] at hrow
      unfold clean_final_output at hrow
      have hrow2 := (List.perm_insertionSort final_sort _).mem_iff.mp hrow
      rcases final_ratings_mem hrow2 with ⟨hcomb, hro, hrd, hrn⟩
      rcases combine_row_shape _ _ _ hcomb with ⟨ho1, ho2, hd1, hd2⟩
      have hoffside :
          row.off_poss = (df.filter (fun r =>
            off_key r = (row.team, row.lineup_players))).length ∧
          row.off_points = ((df.filter (fun r =>
            off_key r = (row.team, row.lineup_players))).map
              (fun r => r.points_scored)).sum := by
        by_cases hk : (row.team, row.lineup_players) ∈ firstOccDedup (df.map off_key)
        · rw [show row.off_poss = row.toCombinedStat.off_poss from rfl, ho1,
            show row.off_points = row.toCombinedStat.off_points from rfl, ho2,
            off_stats_find_mem df _ hk]
          exact ⟨rfl, rfl⟩
        · have hnil : df.filter (fun r =>
              off_key r = (row.team, row.lineup_players)) = [] := by
            rw [List.filter_eq_nil_iff]
            intro r hr hcon
            exact hk (mem_firstOccDedup.mpr
              ((of_decide_eq_true hcon) ▸ List.mem_map_of_mem _ hr))
          rw [show row.off_poss = row.toCombinedStat.off_poss from rfl, ho1,
            show row.off_points = row.toCombinedStat.off_points from rfl, ho2,
            off_stats_find_not_mem df _ hk, hnil]
          exact ⟨rfl, rfl⟩
      have hdefside :
          row.def_poss = (df.filter (fun r =>
            def_key r = (row.team, row.lineup_players))).length ∧
          row.def_points_allowed = ((df.filter (fun r =>
            def_key r = (row.team, row.lineup_players))).map
              (fun r => r.points_scored)).sum := by
        by_cases hk : (row.team, row.lineup_players) ∈ firstOccDedup (df.map def_key)
        · rw [show row.def_poss = row.toCombinedStat.def_poss from rfl, hd1,
            show row.def_points_allowed = row.toCombinedStat.def_points_allowed
              from rfl, hd2, def_stats_find_mem df _ hk]
          exact ⟨rfl, rfl⟩
        · have hnil : df.filter (fun r =>
              def_key r = (row.team, row.lineup_players)) = [] := by
            rw [List.filter_eq_nil_iff]
            intro r hr hcon
            exact hk (mem_firstOccDedup.mpr
              ((of_decide_eq_true hcon) ▸ List.mem_map_of_mem _ hr))
          rw [show row.def_poss = row.toCombinedStat.def_poss from rfl, hd1,
            show row.def_points_allowed = row.toCombinedStat.def_points_allowed
              from rfl, hd2, def_stats_find_not_mem df _ hk, hnil]
          exact ⟨rfl, rfl⟩
      exact ⟨hoffside.1, hoffside.2, hdefside.1, hdefside.2, hro, hrd, hrn⟩

/-- C5 witness: on a one-possession input the offensive unit appears in the
rating table and the key list has no duplicates. -/

theorem lineup_ratings_spec_witness :
    ((calculate_lineup_ratings [wit5_row]).map
      (fun r => (r.team, r.lineup_players))).Nodup ∧
    ("HOU", sort5 5 4 3 2 1) ∈ (calculate_lineup_ratings [wit5_row]).map
      (fun r => (r.team, r.lineup_players)) := by
  refine ⟨(lineup_ratings_spec [wit5_row]).1, ?_⟩
  exact ((lineup_ratings_spec [wit5_row]).2.1 _).mpr
    (Or.inl ⟨wit5_row, List.mem_singleton_self _, rfl⟩)

end LineupRatings
